import Mathlib

/-!
Verification of the overlay compositing engine of `src/lib/overlayRenderer.ts`.

The TypeScript module is shallowly embedded: JS numbers are modelled as `ℚ`
(all arithmetic appearing in the module is exact on dyadic rationals), pixel
coordinates after rounding are `ℤ`, colour channels are `ℕ` (byte values),
and the mutable 2D canvas context is threaded explicitly as a `Ctx` value.
Host-provided functionality (text metrics, glyph rasterisation, CSS colour
parsing) is abstracted into a `Host` record of arbitrary functions, so every
theorem quantifying over a `Host` holds for every conceivable browser host.
-/

namespace OverlayRenderer

/-- JS `Math.round`: round half toward positive infinity. -/
def jsRound (x : ℚ) : ℤ := ⌊x + 1/2⌋

/-- `clamp` from the source, on rationals:
`(value, min, max) => Math.max(min, Math.min(max, value))`. -/
def clampQ (value lo hi : ℚ) : ℚ := max lo (min hi value)

/-- `clamp` from the source, specialised to the integer arithmetic sites. -/
def clampZ (value lo hi : ℤ) : ℤ := max lo (min hi value)

/-- JS `string || default`: the empty string is falsy. -/
def jsOrStr (s d : String) : String := if s = "" then d else s

/-- JS `number || default`: `0` is falsy (`NaN` is outside the model). -/
def jsOrQ (x d : ℚ) : ℚ := if x = 0 then d else x

/-- Characters removed by JS `String.prototype.trim`. -/
def jsTrimChars (cs : List Char) : List Char :=
  ((cs.dropWhile Char.isWhitespace).reverse.dropWhile Char.isWhitespace).reverse

/-- JS `value.trim()`. -/
def jsTrim (s : String) : String := String.mk (jsTrimChars s.toList)

/-- Decimal digits of a leading digit run; `none` when there is none
(the `NaN` outcome of `Number.parseInt`). -/
def parseDigits (cs : List Char) : Option ℕ :=
  let ds := cs.takeWhile (fun c => c.isDigit)
  if ds = [] then none
  else some (ds.foldl (fun acc c => acc * 10 + (c.toNat - 48)) 0)

/-- JS `Number.parseInt(s, 10)`: skip whitespace, optional sign, longest
leading digit run; `none` models the `NaN` result. -/
def parseIntJS (s : String) : Option ℤ :=
  match (jsTrim s).toList with
  | '-' :: rest => (parseDigits rest).map (fun n => -(n : ℤ))
  | '+' :: rest => (parseDigits rest).map (fun n => (n : ℤ))
  | cs => (parseDigits cs).map (fun n => (n : ℤ))

/-- The 22 characters matched by the `[0-9a-fA-F]` character class, built
from the three code-point ranges of the regex. -/
def hexDigitChars : List Char :=
  (List.range 10).map (fun n => Char.ofNat (48 + n)) ++
  (List.range 6).map (fun n => Char.ofNat (97 + n)) ++
  (List.range 6).map (fun n => Char.ofNat (65 + n))

def isHexDigitChar (c : Char) : Bool := decide (c ∈ hexDigitChars)

/-- The test `/^#([0-9a-fA-F]{6})$/.test(v)`. -/
def isHex6 (s : String) : Bool :=
  match s.toList with
  | c :: rest => c == '#' && rest.length == 6 && rest.all isHexDigitChar
  | [] => false

/-- The test `/^#([0-9a-fA-F]{3})$/.test(v)`. -/
def isHex3 (s : String) : Bool :=
  match s.toList with
  | c :: rest => c == '#' && rest.length == 3 && rest.all isHexDigitChar
  | [] => false

/-- `normalizeHexColor` from the source: 6-digit hex passes through, 3-digit
hex expands by doubling each nibble, anything else becomes the fallback.
The final `match` arm is unreachable because `isHex3` pins the shape. -/
def normalizeHexColor (value fallback : String) : String :=
  let v := jsTrim value
  if isHex6 v then v
  else if isHex3 v then
    match v.toList with
    | [_, a, b, c] => String.mk ['#', a, a, b, b, c, c]
    | _ => fallback
  else fallback

/-- The runtime value handed to `normalizeWeight`
(`number | string | undefined`; numeric weights are integral). -/
inductive WeightValue where
  | num (n : ℤ)
  | str (s : String)
  | undef
deriving DecidableEq

/-- `String(value ?? "500")` from `normalizeWeight`. -/
def weightValueRaw : WeightValue → String
  | .num n => toString n
  | .str s => s
  | .undef => "500"

/-- `normalizeWeight` from the source: parse as integer (default 500 on NaN),
round to the nearest multiple of 100, clamp to `[100, 900]`. -/
def normalizeWeight (v : WeightValue) : ℤ :=
  match parseIntJS (weightValueRaw v) with
  | none => 500
  | some p => clampZ (jsRound ((p : ℚ) / 100) * 100) 100 900

/-- `normalizeLineHeight`: default `1.2`, clamp to `[0.8, 2.4]`
(`undefined` is `none`; `NaN` is outside the model). -/
def normalizeLineHeight (v : Option ℚ) : ℚ :=
  match v with
  | none => 6/5
  | some x => clampQ x (4/5) (12/5)

/-- `normalizeLetterSpacing`: default `0`, clamp to `[-2, 12]`. -/
def normalizeLetterSpacing (v : Option ℚ) : ℚ :=
  match v with
  | none => 0
  | some x => clampQ x (-2) 12

/-- `Rect` from `types.ts`: floating-point, possibly degenerate. -/
structure Rect where
  x : ℚ
  y : ℚ
  width : ℚ
  height : ℚ
deriving DecidableEq

/-- `IntRect` from the source: integer pixel bounds. -/
structure IntRect where
  x : ℤ
  y : ℤ
  width : ℤ
  height : ℤ
deriving DecidableEq

/-- `toIntRect` from the source. -/
def toIntRect (rect : Rect) (canvasWidth canvasHeight : ℤ) : IntRect :=
  let x := clampZ ⌊rect.x⌋ 0 (max 0 (canvasWidth - 1))
  let y := clampZ ⌊rect.y⌋ 0 (max 0 (canvasHeight - 1))
  let right := clampZ ⌈rect.x + rect.width⌉ 0 canvasWidth
  let bottom := clampZ ⌈rect.y + rect.height⌉ 0 canvasHeight
  { x := x
    y := y
    width := max 0 (right - x)
    height := max 0 (bottom - y) }

/-- An RGBA pixel as read or written through `getImageData`/`putImageData`. -/
structure Color where
  r : ℕ
  g : ℕ
  b : ℕ
  a : ℕ
deriving DecidableEq

/-- The canvas pixel store, addressed by integer coordinates. -/
def Surface : Type := ℤ × ℤ → Color

/-- The value of `ctx.font`: the template
`${fontWeight} ${fontSize}px ${fontFamily}, sans-serif` is injective in the
three components, so the font string is modelled by the triple. -/
structure Font where
  weight : ℤ
  size : ℚ
  family : String
deriving DecidableEq

/-- `ctx.font = ...` with the constant `, sans-serif` tail of the template. -/
def mkFont (weight : ℤ) (size : ℚ) (fontFamily : String) : Font :=
  { weight := weight, size := size, family := fontFamily ++ ", sans-serif" }

/-- The browser-provided functionality the renderer relies on, left fully
abstract: `measureText` is `ctx.measureText(text).width` under a font;
`parseColor` interprets a CSS colour string for `fillRect`; `textPaint`
says which pixels a `fillText` call would touch (before clipping) and with
which resulting colour, possibly depending on the pixels already there. -/
structure Host where
  measureText : Font → String → ℚ
  parseColor : String → Color
  textPaint : Font → String → String → ℚ → ℚ → Surface → ℤ × ℤ → Option Color

/-- The per-character accumulation of `measureLineWidth` for nonzero
letter-spacing: character widths plus spacing between consecutive characters
(not after the last). -/
def measureChars (host : Host) (font : Font) (letterSpacing : ℚ) : List Char → ℚ
  | [] => 0
  | [c] => host.measureText font (String.mk [c])
  | c :: rest => host.measureText font (String.mk [c]) + letterSpacing +
      measureChars host font letterSpacing rest

/-- `measureLineWidth` from the source. -/
def measureLineWidth (host : Host) (font : Font) (text : String)
    (letterSpacing : ℚ) : ℚ :=
  if text = "" then 0
  else if letterSpacing = 0 then host.measureText font text
  else measureChars host font letterSpacing text.toList

/-- The character loop of `wrapLineByChars`: returns the flushed lines and
the line still being accumulated. -/
def wrapGo (host : Host) (font : Font) (maxWidth letterSpacing : ℚ) :
    List Char → String → List String → List String × String
  | [], current, wrapped => (wrapped, current)
  | ch :: rest, current, wrapped =>
    let candidate := current.push ch
    let candidateWidth := measureLineWidth host font candidate letterSpacing
    if current ≠ "" ∧ candidateWidth > maxWidth then
      wrapGo host font maxWidth letterSpacing rest (String.mk [ch])
        (wrapped ++ [current])
    else
      wrapGo host font maxWidth letterSpacing rest candidate wrapped

/-- `wrapLineByChars` from the source. -/
def wrapLineByChars (host : Host) (font : Font) (line : String)
    (maxWidth letterSpacing : ℚ) : List String :=
  if line = "" then [""]
  else if maxWidth ≤ 1 then [line]
  else
    let (wrapped, current) := wrapGo host font maxWidth letterSpacing
      line.toList "" []
    let wrapped := if current ≠ "" then wrapped ++ [current] else wrapped
    if wrapped = [] then [line] else wrapped

/-- JS `text.split("\n")` on the character list: always at least one
(possibly empty) paragraph. -/
def splitOnNl : List Char → List (List Char)
  | [] => [[]]
  | c :: rest =>
    let r := splitOnNl rest
    if c = '\n' then [] :: r
    else
      match r with
      | h :: t => (c :: h) :: t
      | [] => [[c]]

/-- JS `text.split("\n")`. -/
def splitLines (text : String) : List String :=
  (splitOnNl text.toList).map (fun cs => String.mk cs)

/-- The `forEach` body of `wrapText`: wrap each paragraph, and push one extra
empty line after an empty paragraph that is not the last one. -/
def wrapTextGo (host : Host) (font : Font) (maxWidth letterSpacing : ℚ) :
    List String → List String
  | [] => []
  | [line] => wrapLineByChars host font line maxWidth letterSpacing
  | line :: rest =>
    wrapLineByChars host font line maxWidth letterSpacing ++
      (if line = "" then [""] else []) ++
      wrapTextGo host font maxWidth letterSpacing rest

/-- `wrapText` from the source. -/
def wrapText (host : Host) (font : Font) (text : String)
    (maxWidth letterSpacing : ℚ) : List String :=
  let lines := wrapTextGo host font maxWidth letterSpacing (splitLines text)
  if lines = [] then [""] else lines

/-- The measurement-free image of `wrapText`: every paragraph emitted whole,
with the doubled empty line after each non-final empty paragraph. Used to
state that no character-level wrapping occurs at tiny target widths. -/
def noWrapGo : List String → List String
  | [] => []
  | [line] => [line]
  | line :: rest => [line] ++ (if line = "" then [""] else []) ++ noWrapGo rest

/-- Measurement-free counterpart of `wrapText`. -/
def noWrapText (text : String) : List String :=
  let lines := noWrapGo (splitLines text)
  if lines = [] then [""] else lines

inductive VerticalAlign where
  | top
  | middle
  | bottom
deriving DecidableEq

inductive HorizontalAlign where
  | left
  | center
  | right
deriving DecidableEq

inductive BackgroundMode where
  | solid
  | clone
deriving DecidableEq

inductive CloneDirection where
  | up
  | down
  | left
  | right
deriving DecidableEq

/-- `TextOverlay` from `types.ts`. Fields the renderer guards with `||`,
`??` or `typeof` checks are `Option`-typed so that a missing (`undefined`)
runtime value is representable; `fontWeight` is the integral numeric case of
`number | string | undefined` (see `WeightValue` for the full domain of
`normalizeWeight`). -/
structure TextOverlay where
  id : String
  rect : Rect
  originalText : String
  newText : String
  fontSize : ℚ
  fontWeight : ℤ
  fontColor : String
  fontFamily : String
  letterSpacing : Option ℚ
  lineHeight : Option ℚ
  backgroundColor : String
  backgroundMode : Option BackgroundMode
  cloneDirection : Option CloneDirection
  vAlign : Option VerticalAlign
  hAlign : Option HorizontalAlign

/-- The 2D context state the renderer reads and mutates. `clip` is the
active rectangular clip region (`none` when unclipped). -/
structure Ctx where
  width : ℤ
  height : ℤ
  surface : Surface
  font : Font
  fillStyle : String
  textBaseline : String
  textAlign : String
  clip : Option IntRect

/-- Membership of a pixel in an `IntRect`. -/
def inRect (p : ℤ × ℤ) (r : IntRect) : Prop :=
  r.x ≤ p.1 ∧ p.1 < r.x + r.width ∧ r.y ≤ p.2 ∧ p.2 < r.y + r.height

instance (p : ℤ × ℤ) (r : IntRect) : Decidable (inRect p r) :=
  inferInstanceAs (Decidable (_ ∧ _))

/-- Membership of a pixel in the canvas area `[0,W) × [0,H)`. -/
def inCanvas (ctx : Ctx) (p : ℤ × ℤ) : Prop :=
  0 ≤ p.1 ∧ p.1 < ctx.width ∧ 0 ≤ p.2 ∧ p.2 < ctx.height

instance (ctx : Ctx) (p : ℤ × ℤ) : Decidable (inCanvas ctx p) :=
  inferInstanceAs (Decidable (_ ∧ _))

/-- Whether the active clip region admits a pixel. -/
def clipAllows : Option IntRect → ℤ × ℤ → Prop
  | none, _ => True
  | some r, p => inRect p r

instance : (o : Option IntRect) → (p : ℤ × ℤ) → Decidable (clipAllows o p)
  | none, _ => isTrue True.intro
  | some r, p => inferInstanceAs (Decidable (inRect p r))

/-- A pixel read through `getImageData`: out-of-canvas reads yield
transparent black, per the canvas specification. -/
def readPixel (ctx : Ctx) (p : ℤ × ℤ) : Color :=
  if inCanvas ctx p then ctx.surface p else ⟨0, 0, 0, 0⟩

/-- `ctx.fillRect(x, y, w, h)` with the current `fillStyle`, clipped to the
canvas and to the active clip region. -/
def fillRectOp (host : Host) (ctx : Ctx) (x y w h : ℤ) : Ctx :=
  { ctx with surface := fun p =>
      if x ≤ p.1 ∧ p.1 < x + w ∧ y ≤ p.2 ∧ p.2 < y + h ∧ inCanvas ctx p ∧
          clipAllows ctx.clip p then
        host.parseColor ctx.fillStyle
      else ctx.surface p }

/-- `ctx.fillText(text, x, y)`: the host decides which pixels the glyphs
touch; writes land only inside the canvas and the active clip region. -/
def fillTextOp (host : Host) (ctx : Ctx) (text : String) (x y : ℚ) : Ctx :=
  { ctx with surface := fun p =>
      match host.textPaint ctx.font text ctx.fillStyle x y ctx.surface p with
      | some c => if inCanvas ctx p ∧ clipAllows ctx.clip p then c
                  else ctx.surface p
      | none => ctx.surface p }

/-- `ctx.putImageData(block, x, y)` for a `w × h` block: raw pixel write,
ignores the clip region, restricted to the canvas. -/
def putImageDataOp (ctx : Ctx) (block : ℤ → ℤ → Color) (x y w h : ℤ) : Ctx :=
  { ctx with surface := fun p =>
      if x ≤ p.1 ∧ p.1 < x + w ∧ y ≤ p.2 ∧ p.2 < y + h ∧ inCanvas ctx p then
        block (p.1 - x) (p.2 - y)
      else ctx.surface p }

/-- Intersection of two clip rectangles (possibly empty). -/
def interRect (a b : IntRect) : IntRect :=
  { x := max a.x b.x
    y := max a.y b.y
    width := min (a.x + a.width) (b.x + b.width) - max a.x b.x
    height := min (a.y + a.height) (b.y + b.height) - max a.y b.y }

/-- `ctx.beginPath(); ctx.rect(...); ctx.clip()`: the new clip region is the
intersection of the current one with the given rectangle. -/
def clipOp (ctx : Ctx) (r : IntRect) : Ctx :=
  { ctx with clip := some (match ctx.clip with
      | none => r
      | some c => interRect c r) }

/-- `ctx.fillStyle = s` as a context transformer. -/
def withFillStyle (ctx : Ctx) (s : String) : Ctx := { ctx with fillStyle := s }

/-- `getCloneOrder` from the source. -/
def getCloneOrder : Option CloneDirection → List CloneDirection
  | none => [.up, .down, .left, .right]
  | some direction => [direction]

/-- `getSourceRect` from the source, with its fixed `gap = 2`. -/
def getSourceRect (rect : IntRect) (canvasWidth canvasHeight : ℤ) :
    CloneDirection → Option IntRect
  | .up =>
    let y := rect.y - rect.height - 2
    if 0 ≤ y then some ⟨rect.x, y, rect.width, rect.height⟩ else none
  | .down =>
    let y := rect.y + rect.height + 2
    if y + rect.height ≤ canvasHeight then
      some ⟨rect.x, y, rect.width, rect.height⟩
    else none
  | .left =>
    let x := rect.x - rect.width - 2
    if 0 ≤ x then some ⟨x, rect.y, rect.width, rect.height⟩ else none
  | .right =>
    let x := rect.x + rect.width + 2
    if x + rect.width ≤ canvasWidth then
      some ⟨x, rect.y, rect.width, rect.height⟩
    else none

/-- One blended channel of the feathered clone:
`Math.round(source * alpha + target * (1 - alpha))`. -/
def blendChannel (s t : ℕ) (alpha : ℚ) : ℕ :=
  (jsRound ((s : ℚ) * alpha + (t : ℚ) * (1 - alpha))).toNat

/-- The feathered-clone write of `applyBackground`: read the source and
target blocks, blend with `alpha = 0.96 + 0.04 * clamp(distEdge / 3, 0, 1)`
per pixel, force the alpha channel opaque, and `putImageData` the block back
over the target rectangle. -/
def cloneApply (rect src : IntRect) (ctx : Ctx) : Ctx :=
  let sourceData := fun (i j : ℤ) => readPixel ctx (src.x + i, src.y + j)
  let targetData := fun (i j : ℤ) => readPixel ctx (rect.x + i, rect.y + j)
  let out := fun (i j : ℤ) =>
    let distEdge : ℤ := min (min i j) (min (rect.width - 1 - i) (rect.height - 1 - j))
    let t := clampQ ((distEdge : ℚ) / 3) 0 1
    let alpha := 96/100 + (4/100) * t
    { r := blendChannel (sourceData i j).r (targetData i j).r alpha
      g := blendChannel (sourceData i j).g (targetData i j).g alpha
      b := blendChannel (sourceData i j).b (targetData i j).b alpha
      a := 255 }
  putImageDataOp ctx out rect.x rect.y rect.width rect.height

/-- One hex digit, lowercase, as produced by `Number.prototype.toString(16)`. -/
def hexDigit (n : ℕ) : Char :=
  if n < 10 then Char.ofNat (48 + n) else Char.ofNat (97 + n - 10)

/-- `v.toString(16).padStart(2, "0")` for a byte value `v ≤ 255`. -/
def toHexByte (n : ℕ) : String :=
  String.mk [hexDigit (n / 16 % 16), hexDigit (n % 16)]

/-- Pixel coordinates of a `collect(x, y, w, h)` block, row-major; empty when
`w <= 0 || h <= 0`. -/
def blockCoords (x y w h : ℤ) : List (ℤ × ℤ) :=
  if w ≤ 0 ∨ h ≤ 0 then []
  else (List.range h.toNat).flatMap fun j =>
    (List.range w.toNat).map fun i => (x + i, y + j)

/-- The four 1-pixel strips sampled by `getAverageNeighborColor`, in the
order the source collects them: left column, right column, top row, bottom
row, each only when the corresponding edge has an in-bounds neighbour. -/
def neighborCoords (ctx : Ctx) (rect : IntRect) : List (ℤ × ℤ) :=
  (if 0 < rect.x then blockCoords (rect.x - 1) rect.y 1 rect.height else []) ++
  (if rect.x + rect.width < ctx.width then
    blockCoords (rect.x + rect.width) rect.y 1 rect.height else []) ++
  (if 0 < rect.y then blockCoords rect.x (rect.y - 1) rect.width 1 else []) ++
  (if rect.y + rect.height < ctx.height then
    blockCoords rect.x (rect.y + rect.height) rect.width 1 else [])

/-- `getAverageNeighborColor` from the source: average R/G/B over all strip
pixels, round each channel, format as `#rrggbb`; the fallback string when no
strip pixel exists. -/
def getAverageNeighborColor (ctx : Ctx) (rect : IntRect) (fallback : String) :
    String :=
  let coords := neighborCoords ctx rect
  let count := coords.length
  if count = 0 then fallback
  else
    let rSum : ℕ := (coords.map (fun p => (readPixel ctx p).r)).sum
    let gSum : ℕ := (coords.map (fun p => (readPixel ctx p).g)).sum
    let bSum : ℕ := (coords.map (fun p => (readPixel ctx p).b)).sum
    "#" ++ toHexByte (jsRound ((rSum : ℚ) / count)).toNat ++
      toHexByte (jsRound ((gSum : ℚ) / count)).toNat ++
      toHexByte (jsRound ((bSum : ℚ) / count)).toNat

/-- The `for (const direction of directions)` loop of `applyBackground`:
skip directions without an in-bounds source, apply the feathered clone for
the first one that has one, and fall back to the neighbour-average flat fill
when the list is exhausted. -/
def cloneLoop (host : Host) (rect : IntRect) (fallbackColor : String)
    (ctx : Ctx) : List CloneDirection → Ctx
  | [] =>
    let sampled := getAverageNeighborColor ctx rect fallbackColor
    fillRectOp host { ctx with fillStyle := sampled }
      rect.x rect.y rect.width rect.height
  | direction :: rest =>
    match getSourceRect rect ctx.width ctx.height direction with
    | none => cloneLoop host rect fallbackColor ctx rest
    | some source => cloneApply rect source ctx

/-- `applyBackground` from the source. -/
def applyBackground (host : Host) (overlay : TextOverlay) (rect : IntRect)
    (ctx : Ctx) : Ctx :=
  let mode := overlay.backgroundMode.getD .solid
  let fallbackColor :=
    normalizeHexColor (jsOrStr overlay.backgroundColor "#ffffff") "#ffffff"
  match mode with
  | .solid =>
    fillRectOp host { ctx with fillStyle := fallbackColor }
      rect.x rect.y rect.width rect.height
  | .clone =>
    cloneLoop host rect fallbackColor ctx (getCloneOrder overlay.cloneDirection)

/-- `overlay.fontFamily || "sans-serif"` as resolved by `drawText`. -/
def overlayFamily (overlay : TextOverlay) : String :=
  jsOrStr overlay.fontFamily "sans-serif"

/-- The normalized weight `drawText` uses. -/
def overlayWeight (overlay : TextOverlay) : ℤ :=
  normalizeWeight (.num overlay.fontWeight)

/-- `clamp(overlay.fontSize || 16, 6, 400)`: the starting size of the
autofit loop. -/
def drawTextBase (overlay : TextOverlay) : ℚ :=
  clampQ (jsOrQ overlay.fontSize 16) 6 400

/-- The wrapped lines the autofit loop computes at a candidate font size. -/
def fitLines (host : Host) (fontWeight : ℤ) (fontFamily text : String)
    (rectWidth : ℤ) (letterSpacing fontSize : ℚ) : List String :=
  wrapText host (mkFont fontWeight fontSize fontFamily) text
    (rectWidth : ℚ) letterSpacing

/-- `lines.reduce((max, line) => Math.max(max, measureLineWidth(...)), 0)`. -/
def fitMaxWidth (host : Host) (fontWeight : ℤ) (fontFamily text : String)
    (rectWidth : ℤ) (letterSpacing fontSize : ℚ) : ℚ :=
  (fitLines host fontWeight fontFamily text rectWidth letterSpacing
      fontSize).foldl
    (fun m line => max m (measureLineWidth host
      (mkFont fontWeight fontSize fontFamily) line letterSpacing)) 0

/-- The `totalHeight <= rect.height && maxWidth <= rect.width` test of the
autofit loop at a candidate font size. -/
def fitsAt (host : Host) (fontWeight : ℤ) (fontFamily text : String)
    (rect : IntRect) (letterSpacing lineHeight fontSize : ℚ) : Bool :=
  decide (((fitLines host fontWeight fontFamily text rect.width letterSpacing
      fontSize).length : ℚ) * (fontSize * lineHeight) ≤ (rect.height : ℚ) ∧
    fitMaxWidth host fontWeight fontFamily text rect.width letterSpacing
      fontSize ≤ (rect.width : ℚ))

/-- The `while (fontSize >= minFontSize)` autofit loop, expressed with
explicit fuel (the source loop has no structural bound; `fitFuel` below is
proven sufficient, which is the termination argument). The second component
is the `lines` variable, which survives the loop. -/
def fitLoop (host : Host) (fontWeight : ℤ) (fontFamily text : String)
    (rect : IntRect) (letterSpacing lineHeight : ℚ) :
    ℕ → ℚ → List String → ℚ × List String
  | 0, fontSize, lines => (fontSize, lines)
  | fuel + 1, fontSize, lines =>
    if 6 ≤ fontSize then
      let lines' := fitLines host fontWeight fontFamily text rect.width
        letterSpacing fontSize
      if fitsAt host fontWeight fontFamily text rect letterSpacing lineHeight
          fontSize then
        (fontSize, lines')
      else
        fitLoop host fontWeight fontFamily text rect letterSpacing lineHeight
          fuel (fontSize - 1/2) lines'
    else (fontSize, lines)

/-- Iteration bound for the autofit loop: from size `fs`, at most
`⌈2 fs⌉ - 11` decrements of `0.5` keep the size at or above `6`. -/
def fitMeasure (fontSize : ℚ) : ℕ := (⌈2 * fontSize⌉ - 11).toNat

/-- Fuel that `fitLoop` is proven never to exhaust. -/
def fitFuel (fontSize : ℚ) : ℕ := fitMeasure fontSize + 1

/-- The font size and wrapped lines `drawText` settles on. -/
def drawTextFit (host : Host) (overlay : TextOverlay) (rect : IntRect) :
    ℚ × List String :=
  fitLoop host (overlayWeight overlay) (overlayFamily overlay) overlay.newText
    rect (normalizeLetterSpacing overlay.letterSpacing)
    (normalizeLineHeight overlay.lineHeight)
    (fitFuel (drawTextBase overlay)) (drawTextBase overlay) []

/-- The font `drawText` sets before painting (also left on the context after
the final `restore`, which restores a state saved after the assignment). -/
def drawTextFont (host : Host) (overlay : TextOverlay) (rect : IntRect) :
    Font :=
  mkFont (overlayWeight overlay) (drawTextFit host overlay rect).1
    (overlayFamily overlay)

/-- The per-character loop of `drawLineWithSpacing`: paint each character,
advance by its measured width plus the letter-spacing except after the last
character of the line. -/
def drawCharsLoop (host : Host) (letterSpacing y : ℚ) :
    List Char → ℚ → Ctx → Ctx
  | [], _, ctx => ctx
  | ch :: rest, cursorX, ctx =>
    let ctx' := fillTextOp host ctx (String.mk [ch]) cursorX y
    let cursorX' := cursorX + host.measureText ctx.font (String.mk [ch]) +
      (if rest = [] then 0 else letterSpacing)
    drawCharsLoop host letterSpacing y rest cursorX' ctx'

/-- `drawLineWithSpacing` from the source. -/
def drawLineWithSpacing (host : Host) (ctx : Ctx) (line : String)
    (x y letterSpacing : ℚ) : Ctx :=
  if line = "" then ctx
  else if letterSpacing = 0 then fillTextOp host ctx line x y
  else drawCharsLoop host letterSpacing y line.toList x ctx

/-- The `lines.forEach((line, index) => ...)` paint loop of `drawText`. -/
def paintLines (host : Host) (hAlign : HorizontalAlign) (rect : IntRect)
    (letterSpacing startY lineHeightPx : ℚ) :
    List String → ℕ → Ctx → Ctx
  | [], _, ctx => ctx
  | line :: rest, index, ctx =>
    let lineWidth := measureLineWidth host ctx.font line letterSpacing
    let startX : ℚ :=
      if hAlign = .center then (rect.x : ℚ) + ((rect.width : ℚ) - lineWidth) / 2
      else if hAlign = .right then (rect.x : ℚ) + (rect.width : ℚ) - lineWidth
      else (rect.x : ℚ)
    let ctx' := drawLineWithSpacing host ctx line startX
      (startY + (index : ℚ) * lineHeightPx) letterSpacing
    paintLines host hAlign rect letterSpacing startY lineHeightPx rest
      (index + 1) ctx'

/-- `drawText` from the source: run the autofit loop, set font, colour,
baseline and alignment, compute the clamped block start, clip to the
rectangle, paint every line, and restore the saved clip. -/
def drawText (host : Host) (overlay : TextOverlay) (rect : IntRect)
    (ctx : Ctx) : Ctx :=
  let letterSpacing := normalizeLetterSpacing overlay.letterSpacing
  let lineHeight := normalizeLineHeight overlay.lineHeight
  let hAlign := overlay.hAlign.getD .left
  let vAlign := overlay.vAlign.getD .top
  let fontSize := (drawTextFit host overlay rect).1
  let lines := (drawTextFit host overlay rect).2
  let ctx1 : Ctx := { ctx with
    font := drawTextFont host overlay rect
    fillStyle := normalizeHexColor (jsOrStr overlay.fontColor "#000000")
      "#000000"
    textBaseline := "top"
    textAlign := "left" }
  let lineHeightPx := fontSize * lineHeight
  let totalTextHeight := (lines.length : ℚ) * lineHeightPx
  let startY0 : ℚ :=
    if vAlign = .middle then
      (rect.y : ℚ) + ((rect.height : ℚ) - totalTextHeight) / 2
    else if vAlign = .bottom then
      (rect.y : ℚ) + (rect.height : ℚ) - totalTextHeight
    else (rect.y : ℚ)
  let startY := max (rect.y : ℚ) startY0
  let savedClip := ctx1.clip
  let ctx2 := clipOp ctx1 rect
  let ctx3 := paintLines host hAlign rect letterSpacing startY lineHeightPx
    lines 0 ctx2
  { ctx3 with clip := savedClip }

/-- `renderTextOverlay` from the source: resolve the rectangle, bail out on
a degenerate one, reconstruct the background, then paint the text. -/
def renderTextOverlay (host : Host) (overlay : TextOverlay) (ctx : Ctx) :
    Ctx :=
  let rect := toIntRect overlay.rect ctx.width ctx.height
  if rect.width ≤ 0 ∨ rect.height ≤ 0 then ctx
  else drawText host overlay rect (applyBackground host overlay rect ctx)

/-- A concrete host for witness instantiations: zero-width text metrics,
glyphs that touch no pixel, and a parser distinguishing white from black. -/
def plainHost : Host :=
  { measureText := fun _ _ => 0
    parseColor := fun s => if s = "#ffffff" then ⟨255, 255, 255, 255⟩
      else ⟨0, 0, 0, 255⟩
    textPaint := fun _ _ _ _ _ _ _ => none }

/-- A host whose metrics report every non-empty string as 100px wide, so no
text can ever fit a 10px-wide rectangle. -/
def wideHost : Host :=
  { plainHost with measureText := fun _ s => if s = "" then 0 else 100 }

/-- A host with a kerning pair: the string `ab` measures narrower than the
sum of its characters would not — here `ab` is 5 while each character is 1,
so whole-line and per-character measurements disagree. -/
def kernHost : Host :=
  { plainHost with measureText := fun _ s => if s = "ab" then 5 else 1 }

/-- A sample font for closed statements about the measurement helpers. -/
def sampleFont : Font := mkFont 400 16 "serif"

/-- A default overlay record; witnesses override the relevant fields. -/
def baseOverlay : TextOverlay :=
  { id := "o1"
    rect := ⟨0, 0, 10, 10⟩
    originalText := ""
    newText := ""
    fontSize := 16
    fontWeight := 400
    fontColor := "#000000"
    fontFamily := "serif"
    letterSpacing := some 0
    lineHeight := some (6/5)
    backgroundColor := "#336699"
    backgroundMode := some .solid
    cloneDirection := none
    vAlign := some .top
    hAlign := some .left }

/-- A canvas context of the given size over a constant grey surface. -/
def mkCtx (w h : ℤ) : Ctx :=
  { width := w
    height := h
    surface := fun _ => ⟨7, 7, 7, 255⟩
    font := sampleFont
    fillStyle := "#000000"
    textBaseline := "alphabetic"
    textAlign := "start"
    clip := none }

/-- The overlay of the C1 counterexample: a character that measures 100px
under `wideHost`, so it cannot fit the 10×10 rectangle at any size. -/
def unfitOverlay : TextOverlay := { baseOverlay with newText := "m" }

/-- The 10×10 resolved rectangle used by the autofit statements. -/
def smallRect : IntRect := ⟨0, 0, 10, 10⟩

/-- A 1-pixel-wide resolved rectangle for the no-wrap statements. -/
def thinRect : IntRect := ⟨0, 0, 1, 10⟩

/-- The overlay of the C2 counterexample: a rect fully to the right of a
10×10 canvas. -/
def offRightOverlay : TextOverlay :=
  { baseOverlay with rect := ⟨15, 2, 5, 5⟩, fontSize := 6 }

/-- The overlay of the C2 witness: a rect fully to the left of the canvas. -/
def offLeftOverlay : TextOverlay :=
  { baseOverlay with rect := ⟨-10, 2, 5, 5⟩ }

/-- The overlay of the C8 witness. -/
def outsideOverlay : TextOverlay := { baseOverlay with rect := ⟨0, 0, 3, 3⟩ }

/-- The overlay of the C7 witness: clone mode over the full canvas. -/
def fullCanvasCloneOverlay : TextOverlay :=
  { baseOverlay with rect := ⟨0, 0, 5, 5⟩, backgroundMode := some .clone }

/-- The overlay of the C6 witness: clone mode, direction unset, rectangle in
the top-left corner so that `up` is out of bounds and `down` is in bounds. -/
def cornerCloneOverlay : TextOverlay :=
  { baseOverlay with backgroundMode := some .clone }

/-! ### Helper lemmas -/

theorem toIntRect_width_eq_zero_of_left (rect : Rect) (W H : ℤ)
    (h : rect.x + rect.width ≤ 0) : (toIntRect rect W H).width = 0 := by
  have hc : ⌈rect.x + rect.width⌉ ≤ 0 := by
    rw [show ((0:ℤ) = ((0:ℤ):ℤ)) from rfl, Int.ceil_le]
    exact_mod_cast h
  simp only [toIntRect, clampZ]
  omega

theorem toIntRect_height_eq_zero_of_above (rect : Rect) (W H : ℤ)
    (h : rect.y + rect.height ≤ 0) : (toIntRect rect W H).height = 0 := by
  have hc : ⌈rect.y + rect.height⌉ ≤ 0 := by
    rw [show ((0:ℤ) = ((0:ℤ):ℤ)) from rfl, Int.ceil_le]
    exact_mod_cast h
  simp only [toIntRect, clampZ]
  omega

theorem renderTextOverlay_eq_of_degenerate (host : Host) (overlay : TextOverlay)
    (ctx : Ctx)
    (h : (toIntRect overlay.rect ctx.width ctx.height).width = 0 ∨
      (toIntRect overlay.rect ctx.width ctx.height).height = 0) :
    renderTextOverlay host overlay ctx = ctx := by
  unfold renderTextOverlay
  rw [if_pos]
  omega

/-! ### C3: bounds invariant of the region resolver -/

/-- C3: for every canvas size `W, H ≥ 1` and every input `Rect` (negative
positions and sizes included), `toIntRect` yields `0 ≤ x`, `0 ≤ y`,
`x + width ≤ W`, `y + height ≤ H`, `width ≥ 0`, `height ≥ 0`. -/
theorem toIntRect_bounds (rect : Rect) (W H : ℤ) (hW : 1 ≤ W) (hH : 1 ≤ H) :
    0 ≤ (toIntRect rect W H).x ∧ 0 ≤ (toIntRect rect W H).y ∧
    (toIntRect rect W H).x + (toIntRect rect W H).width ≤ W ∧
    (toIntRect rect W H).y + (toIntRect rect W H).height ≤ H ∧
    0 ≤ (toIntRect rect W H).width ∧ 0 ≤ (toIntRect rect W H).height := by
  simp only [toIntRect, clampZ]
  refine ⟨?_, ?_, ?_, ?_, ?_, ?_⟩ <;> omega

/-- Witness for C3 at canvas `10 × 10` and rect `(-5, -3, 100, 200)`. -/
theorem toIntRect_bounds_witness :
    0 ≤ (toIntRect ⟨-5, -3, 100, 200⟩ 10 10).x ∧
    0 ≤ (toIntRect ⟨-5, -3, 100, 200⟩ 10 10).y ∧
    (toIntRect ⟨-5, -3, 100, 200⟩ 10 10).x +
      (toIntRect ⟨-5, -3, 100, 200⟩ 10 10).width ≤ 10 ∧
    (toIntRect ⟨-5, -3, 100, 200⟩ 10 10).y +
      (toIntRect ⟨-5, -3, 100, 200⟩ 10 10).height ≤ 10 ∧
    0 ≤ (toIntRect ⟨-5, -3, 100, 200⟩ 10 10).width ∧
    0 ≤ (toIntRect ⟨-5, -3, 100, 200⟩ 10 10).height :=
  toIntRect_bounds ⟨-5, -3, 100, 200⟩ 10 10 (by decide) (by decide)

/-! ### A host whose glyphs touch no pixel leaves the surface alone in
`drawText`; used to evaluate whole-renderer pixel effects concretely. -/

def Paintless (host : Host) : Prop :=
  ∀ f t s x y sur p, host.textPaint f t s x y sur p = none

theorem plainHost_paintless : Paintless plainHost := fun _ _ _ _ _ _ _ => rfl

theorem wideHost_paintless : Paintless wideHost := fun _ _ _ _ _ _ _ => rfl

theorem fillTextOp_surface_paintless (host : Host) (h : Paintless host)
    (ctx : Ctx) (text : String) (x y : ℚ) (p : ℤ × ℤ) :
    (fillTextOp host ctx text x y).surface p = ctx.surface p := by
  simp [fillTextOp, h ctx.font text ctx.fillStyle x y ctx.surface p]

theorem fillTextOp_clip (host : Host) (ctx : Ctx) (text : String) (x y : ℚ) :
    (fillTextOp host ctx text x y).clip = ctx.clip := rfl

theorem fillTextOp_font (host : Host) (ctx : Ctx) (text : String) (x y : ℚ) :
    (fillTextOp host ctx text x y).font = ctx.font := rfl

theorem drawCharsLoop_surface_paintless (host : Host) (h : Paintless host)
    (letterSpacing y : ℚ) (p : ℤ × ℤ) :
    ∀ (cs : List Char) (cursorX : ℚ) (ctx : Ctx),
      (drawCharsLoop host letterSpacing y cs cursorX ctx).surface p =
        ctx.surface p := by
  intro cs
  induction cs with
  | nil => intro cursorX ctx; rfl
  | cons c rest ih =>
    intro cursorX ctx
    simp only [drawCharsLoop, ih]
    exact fillTextOp_surface_paintless host h ctx _ cursorX y p

theorem drawLineWithSpacing_surface_paintless (host : Host) (h : Paintless host)
    (ctx : Ctx) (line : String) (x y letterSpacing : ℚ) (p : ℤ × ℤ) :
    (drawLineWithSpacing host ctx line x y letterSpacing).surface p =
      ctx.surface p := by
  unfold drawLineWithSpacing
  split
  · rfl
  · split
    · exact fillTextOp_surface_paintless host h ctx line x y p
    · exact drawCharsLoop_surface_paintless host h letterSpacing y p _ x ctx

theorem paintLines_surface_paintless (host : Host) (h : Paintless host)
    (hAlign : HorizontalAlign) (rect : IntRect)
    (letterSpacing startY lineHeightPx : ℚ) (p : ℤ × ℤ) :
    ∀ (lines : List String) (index : ℕ) (ctx : Ctx),
      (paintLines host hAlign rect letterSpacing startY lineHeightPx lines
        index ctx).surface p = ctx.surface p := by
  intro lines
  induction lines with
  | nil => intro index ctx; rfl
  | cons line rest ih =>
    intro index ctx
    simp only [paintLines, ih]
    exact drawLineWithSpacing_surface_paintless host h ctx line _ _
      letterSpacing p

theorem drawText_surface_paintless (host : Host) (h : Paintless host)
    (overlay : TextOverlay) (rect : IntRect) (ctx : Ctx) (p : ℤ × ℤ) :
    (drawText host overlay rect ctx).surface p = ctx.surface p := by
  unfold drawText
  simp only [paintLines_surface_paintless host h]
  rfl

/-! ### C2: rects entirely outside the canvas -/

/-- C2 (amended): a rect entirely to the left of or above the canvas
resolves to `width = 0` or `height = 0`, and `renderTextOverlay` is then a
no-op. (Rects entirely to the right of or below the canvas do not resolve
to a degenerate rect: see the counterexample.) -/
theorem offcanvas_left_above_noop (host : Host) (overlay : TextOverlay)
    (ctx : Ctx)
    (h : overlay.rect.x + overlay.rect.width ≤ 0 ∨
      overlay.rect.y + overlay.rect.height ≤ 0) :
    ((toIntRect overlay.rect ctx.width ctx.height).width = 0 ∨
      (toIntRect overlay.rect ctx.width ctx.height).height = 0) ∧
    renderTextOverlay host overlay ctx = ctx := by
  have hz : (toIntRect overlay.rect ctx.width ctx.height).width = 0 ∨
      (toIntRect overlay.rect ctx.width ctx.height).height = 0 := by
    rcases h with h | h
    · exact Or.inl (toIntRect_width_eq_zero_of_left _ _ _ h)
    · exact Or.inr (toIntRect_height_eq_zero_of_above _ _ _ h)
  exact ⟨hz, renderTextOverlay_eq_of_degenerate host overlay ctx hz⟩

theorem offLeftOverlay_outside :
    offLeftOverlay.rect.x + offLeftOverlay.rect.width ≤ 0 ∨
      offLeftOverlay.rect.y + offLeftOverlay.rect.height ≤ 0 := by
  left
  norm_num [offLeftOverlay, baseOverlay]

/-- Witness for the amended C2 at a rect fully to the left of the canvas. -/
theorem offcanvas_left_above_noop_witness :
    ((toIntRect offLeftOverlay.rect (mkCtx 10 10).width
        (mkCtx 10 10).height).width = 0 ∨
      (toIntRect offLeftOverlay.rect (mkCtx 10 10).width
        (mkCtx 10 10).height).height = 0) ∧
    renderTextOverlay plainHost offLeftOverlay (mkCtx 10 10) = mkCtx 10 10 :=
  offcanvas_left_above_noop plainHost offLeftOverlay (mkCtx 10 10)
    offLeftOverlay_outside

theorem offRight_resolves :
    toIntRect offRightOverlay.rect 10 10 = ⟨9, 2, 1, 5⟩ := by
  simp only [toIntRect, clampZ, offRightOverlay, baseOverlay]
  norm_num

/-- C2 counterexample: the rect `(15, 2, 5, 5)` lies entirely to the right
of the `10 × 10` canvas (`rect.x ≥ W`), yet it resolves to the 1-pixel-wide
strip `(9, 2, 1, 5)` — neither `width` nor `height` is `0` — and
`renderTextOverlay` does modify a surface pixel inside that strip. -/
theorem offcanvas_right_counterexample :
    (10 : ℚ) ≤ offRightOverlay.rect.x ∧
    toIntRect offRightOverlay.rect 10 10 = ⟨9, 2, 1, 5⟩ ∧
    ¬((toIntRect offRightOverlay.rect 10 10).width = 0 ∨
      (toIntRect offRightOverlay.rect 10 10).height = 0) ∧
    (renderTextOverlay plainHost offRightOverlay (mkCtx 10 10)).surface (9, 2) ≠
      (mkCtx 10 10).surface (9, 2) := by
  refine ⟨by norm_num [offRightOverlay, baseOverlay], offRight_resolves,
    by rw [offRight_resolves]; decide, ?_⟩
  have hw : (mkCtx 10 10).width = 10 := rfl
  have hh : (mkCtx 10 10).height = 10 := rfl
  unfold renderTextOverlay
  rw [hw, hh, offRight_resolves, if_neg (by decide)]
  rw [drawText_surface_paintless plainHost plainHost_paintless]
  have hmode : offRightOverlay.backgroundMode = some .solid := rfl
  have hcol : normalizeHexColor (jsOrStr offRightOverlay.backgroundColor
      "#ffffff") "#ffffff" = "#336699" := by decide
  simp only [applyBackground, hmode, Option.getD_some, hcol]
  simp only [fillRectOp]
  rw [if_pos]
  · decide
  · refine ⟨by decide, by decide, by decide, by decide, ?_, trivial⟩
    exact ⟨by decide, by decide, by decide, by decide⟩

/-! ### C9: style normalizer defaults -/

theorem parseIntJS_undef : parseIntJS (weightValueRaw .undef) = some 500 := by
  decide

theorem parseIntJS_733 : parseIntJS (weightValueRaw (.num 733)) = some 733 := by
  decide

/-- C9: `normalizeHexColor` maps an invalid colour to the fallback and
expands 3-digit hex by doubling nibbles; `normalizeWeight` parses an
integer, rounds to the nearest multiple of 100 and clamps to `[100, 900]`,
so `undefined ↦ 500` and `733 ↦ 700`. -/
theorem normalizer_defaults :
    normalizeHexColor "notacolor" "#ffffff" = "#ffffff" ∧
    (∀ fallback : String, normalizeHexColor "#abc" fallback = "#aabbcc") ∧
    normalizeWeight .undef = 500 ∧
    normalizeWeight (.num 733) = 700 := by
  refine ⟨by decide, ?_, ?_, ?_⟩
  · intro fallback
    have ht : jsTrim "#abc" = "#abc" := by decide
    have h6 : isHex6 "#abc" = false := by decide
    have h3 : isHex3 "#abc" = true := by decide
    have hl : "#abc".toList = ['#', 'a', 'b', 'c'] := by decide
    simp only [normalizeHexColor, ht, h6, h3, hl, Bool.false_eq_true,
      if_false, if_true]
  · rw [normalizeWeight, parseIntJS_undef]
    have h5 : jsRound ((500 : ℤ) / 100 : ℚ) = 5 := by
      rw [jsRound, Int.floor_eq_iff]
      norm_num
    simp only [h5]
    decide
  · rw [normalizeWeight, parseIntJS_733]
    have h7 : jsRound ((733 : ℤ) / 100 : ℚ) = 7 := by
      rw [jsRound, Int.floor_eq_iff]
      norm_num
    simp only [h7]
    decide

/-! ### C10: no wrapping at target widths of at most one pixel -/

theorem wrapLineByChars_of_le_one (host : Host) (font : Font) (line : String)
    (maxWidth letterSpacing : ℚ) (hw : maxWidth ≤ 1) :
    wrapLineByChars host font line maxWidth letterSpacing = [line] := by
  unfold wrapLineByChars
  by_cases hl : line = ""
  · rw [if_pos hl, hl]
  · rw [if_neg hl, if_pos hw]

theorem wrapTextGo_of_le_one (host : Host) (font : Font)
    (maxWidth letterSpacing : ℚ) (hw : maxWidth ≤ 1) :
    ∀ paragraphs : List String,
      wrapTextGo host font maxWidth letterSpacing paragraphs =
        noWrapGo paragraphs := by
  intro paragraphs
  induction paragraphs with
  | nil => rfl
  | cons line rest ih =>
    cases rest with
    | nil =>
      simp only [wrapTextGo, noWrapGo]
      exact wrapLineByChars_of_le_one host font line maxWidth letterSpacing hw
    | cons r rs =>
      simp only [wrapTextGo, noWrapGo,
        wrapLineByChars_of_le_one host font line maxWidth letterSpacing hw]
      rw [ih]

theorem wrapText_of_le_one (host : Host) (font : Font) (text : String)
    (maxWidth letterSpacing : ℚ) (hw : maxWidth ≤ 1) :
    wrapText host font text maxWidth letterSpacing = noWrapText text := by
  unfold wrapText noWrapText
  rw [wrapTextGo_of_le_one host font maxWidth letterSpacing hw]

theorem fitLoop_snd_const (host : Host) (fontWeight : ℤ)
    (fontFamily text : String) (rect : IntRect) (letterSpacing lineHeight : ℚ)
    (K : List String)
    (hK : ∀ fs, fitLines host fontWeight fontFamily text rect.width
      letterSpacing fs = K) :
    ∀ (n : ℕ) (fs : ℚ),
      (fitLoop host fontWeight fontFamily text rect letterSpacing lineHeight
        n fs K).2 = K := by
  intro n
  induction n with
  | zero => intro fs; rfl
  | succ n ih =>
    intro fs
    simp only [fitLoop, hK]
    split
    · split
      · rfl
      · exact ih (fs - 1/2)
    · rfl

theorem fitLoop_snd_of_const (host : Host) (fontWeight : ℤ)
    (fontFamily text : String) (rect : IntRect) (letterSpacing lineHeight : ℚ)
    (K : List String)
    (hK : ∀ fs, fitLines host fontWeight fontFamily text rect.width
      letterSpacing fs = K)
    (n : ℕ) (fs : ℚ) (acc : List String) (hfs : 6 ≤ fs) (hn : 1 ≤ n) :
    (fitLoop host fontWeight fontFamily text rect letterSpacing lineHeight
      n fs acc).2 = K := by
  obtain ⟨m, rfl⟩ : ∃ m, n = m + 1 := ⟨n - 1, by omega⟩
  simp only [fitLoop, hK, if_pos hfs]
  split
  · rfl
  · exact fitLoop_snd_const host fontWeight fontFamily text rect letterSpacing
      lineHeight K hK m (fs - 1/2)

theorem drawTextBase_ge_six (overlay : TextOverlay) :
    6 ≤ drawTextBase overlay :=
  le_max_left 6 _

theorem fitFuel_pos (fontSize : ℚ) : 1 ≤ fitFuel fontSize :=
  Nat.le_add_left 1 _

/-- C10: with a target width of at most one pixel, `wrapLineByChars` returns
the whole line unbroken for every host (so no measurement can influence the
result), `wrapText` degenerates to the measurement-free `noWrapText`, and
consequently for a resolved rect of width 1 the lines `drawText` settles on
are exactly the unwrapped paragraphs of the overlay text. -/
theorem no_wrap_at_unit_width (host : Host) (font : Font) (line : String)
    (maxWidth letterSpacing : ℚ) (overlay : TextOverlay) (rect : IntRect)
    (hl : line ≠ "") (hw : maxWidth ≤ 1) (hr : rect.width = 1) :
    wrapLineByChars host font line maxWidth letterSpacing = [line] ∧
    wrapText host font overlay.newText maxWidth letterSpacing =
      noWrapText overlay.newText ∧
    (drawTextFit host overlay rect).2 = noWrapText overlay.newText := by
  refine ⟨wrapLineByChars_of_le_one host font line maxWidth letterSpacing hw,
    wrapText_of_le_one host font overlay.newText maxWidth letterSpacing hw,
    ?_⟩
  unfold drawTextFit
  refine fitLoop_snd_of_const _ _ _ _ _ _ _ _ ?_ _ _ _
    (drawTextBase_ge_six overlay) (fitFuel_pos _)
  intro fs
  unfold fitLines
  refine wrapText_of_le_one _ _ _ _ _ ?_
  rw [hr]
  norm_num

/-- Witness for C10 at a concrete host, font, line and 1-pixel-wide rect. -/
theorem no_wrap_at_unit_width_witness :
    wrapLineByChars plainHost sampleFont "xy" 1 0 = ["xy"] ∧
    wrapText plainHost sampleFont baseOverlay.newText 1 0 =
      noWrapText baseOverlay.newText ∧
    (drawTextFit plainHost baseOverlay thinRect).2 =
      noWrapText baseOverlay.newText :=
  no_wrap_at_unit_width plainHost sampleFont "xy" 1 0 baseOverlay thinRect
    (by decide) (by decide) (by decide)

/-! ### C4: empty paragraphs in `wrapText` -/

theorem splitOnNl_of_no_newline (cs : List Char) (h : '\n' ∉ cs) :
    splitOnNl cs = [cs] := by
  induction cs with
  | nil => rfl
  | cons c rest ih =>
    have hc : ¬ c = '\n' := fun he => h (he ▸ List.mem_cons_self c rest)
    have hr : '\n' ∉ rest := fun hm => h (List.mem_cons_of_mem c hm)
    simp only [splitOnNl, if_neg hc, ih hr]

theorem splitOnNl_replicate_newline (n : ℕ) (cs : List Char) :
    splitOnNl (List.replicate n '\n' ++ cs) =
      List.replicate n [] ++ splitOnNl cs := by
  induction n with
  | zero => simp
  | succ n ih => simp [List.replicate_succ, splitOnNl, ih]

theorem splitOnNl_append_of_no_newline (xs ys : List Char) (l : List Char)
    (ls : List (List Char)) (hx : '\n' ∉ xs) (hy : splitOnNl ys = l :: ls) :
    splitOnNl (xs ++ ys) = (xs ++ l) :: ls := by
  induction xs with
  | nil => simpa using hy
  | cons c rest ih =>
    have hc : ¬ c = '\n' := fun he => hx (he ▸ List.mem_cons_self c rest)
    have hr : '\n' ∉ rest := fun hm => hx (List.mem_cons_of_mem c hm)
    simp only [List.cons_append, splitOnNl, if_neg hc, List.append_eq, ih hr]

theorem mk_toList (s : String) : String.mk s.toList = s := rfl

theorem splitLines_decomposition (a b : String) (n : ℕ) (hn : 1 ≤ n)
    (ha : '\n' ∉ a.toList) (hb : '\n' ∉ b.toList) :
    splitLines (a ++ String.mk (List.replicate n '\n') ++ b) =
      a :: (List.replicate (n - 1) "" ++ [b]) := by
  obtain ⟨m, rfl⟩ : ∃ m, n = m + 1 := ⟨n - 1, by omega⟩
  have hdata : (a ++ String.mk (List.replicate (m + 1) '\n') ++ b).toList =
      a.toList ++ (List.replicate (m + 1) '\n' ++ b.toList) := by
    show (a ++ String.mk (List.replicate (m + 1) '\n') ++ b).data = _
    simp [String.data_append]
  have htail : splitOnNl (List.replicate (m + 1) '\n' ++ b.toList) =
      [] :: (List.replicate m [] ++ [b.toList]) := by
    rw [splitOnNl_replicate_newline, splitOnNl_of_no_newline b.toList hb,
      List.replicate_succ]
    simp
  unfold splitLines
  rw [hdata, splitOnNl_append_of_no_newline a.toList _ _ _ ha htail,
    List.append_nil]
  simp [mk_toList]

theorem wrapGo_flushed_ne_empty (host : Host) (font : Font)
    (maxWidth letterSpacing : ℚ) :
    ∀ (cs : List Char) (current : String) (wrapped : List String),
      (∀ w ∈ wrapped, w ≠ "") →
      ∀ w ∈ (wrapGo host font maxWidth letterSpacing cs current wrapped).1,
        w ≠ "" := by
  intro cs
  induction cs with
  | nil => intro current wrapped hw; exact hw
  | cons c rest ih =>
    intro current wrapped hw
    simp only [wrapGo]
    split
    · rename_i hcond
      refine ih _ _ ?_
      intro w hwmem
      rcases List.mem_append.mp hwmem with h | h
      · exact hw w h
      · rcases List.mem_singleton.mp h with rfl
        exact hcond.1
    · exact ih _ _ hw

theorem push_ne_empty (s : String) (c : Char) : s.push c ≠ "" := by
  intro h
  have := congrArg String.data h
  simp [String.push] at this

theorem wrapLineByChars_no_empty (host : Host) (font : Font) (line : String)
    (maxWidth letterSpacing : ℚ) (hl : line ≠ "") :
    "" ∉ wrapLineByChars host font line maxWidth letterSpacing := by
  unfold wrapLineByChars
  rw [if_neg hl]
  by_cases hw : maxWidth ≤ 1
  · rw [if_pos hw]
    intro hmem
    exact hl (List.mem_singleton.mp hmem).symm
  · rw [if_neg hw]
    rcases hgo : wrapGo host font maxWidth letterSpacing line.toList "" []
      with ⟨ws, cur⟩
    have hws : ∀ w ∈ ws, w ≠ "" := by
      have h := wrapGo_flushed_ne_empty host font maxWidth letterSpacing
        line.toList "" [] (by intro w hw'; simp at hw')
      rw [hgo] at h
      exact fun w hw' => h w hw'
    dsimp only
    by_cases hcur : cur = ""
    · simp only [hcur, ne_eq, not_true_eq_false, if_false, ite_not]
      split
      · rename_i hemp
        intro hmem
        exact hl (List.mem_singleton.mp hmem).symm
      · exact fun hmem => hws "" hmem rfl
    · have hcur' : cur ≠ "" := hcur
      simp only [ne_eq, hcur, not_false_eq_true, if_true]
      have hne : ¬ (ws ++ [cur] = []) := by simp
      rw [if_neg hne]
      intro hmem
      rcases List.mem_append.mp hmem with h | h
      · exact hws "" h rfl
      · exact hcur (List.mem_singleton.mp h).symm

theorem wrapLineByChars_ne_nil (host : Host) (font : Font) (line : String)
    (maxWidth letterSpacing : ℚ) :
    wrapLineByChars host font line maxWidth letterSpacing ≠ [] := by
  unfold wrapLineByChars
  by_cases hl : line = ""
  · rw [if_pos hl]
    simp
  · rw [if_neg hl]
    by_cases hw : maxWidth ≤ 1
    · rw [if_pos hw]
      simp
    · rw [if_neg hw]
      rcases hgo : wrapGo host font maxWidth letterSpacing line.toList "" []
        with ⟨ws, cur⟩
      dsimp only
      by_cases hcur : cur = ""
      · simp only [hcur, ne_eq, not_true_eq_false, if_false, ite_not]
        split
        · simp
        · rename_i h
          exact h
      · simp only [ne_eq, hcur, not_false_eq_true, if_true]
        split
        · simp
        · rename_i h
          exact h

theorem wrapLineByChars_empty (host : Host) (font : Font)
    (maxWidth letterSpacing : ℚ) :
    wrapLineByChars host font "" maxWidth letterSpacing = [""] := by
  unfold wrapLineByChars
  rw [if_pos rfl]

theorem replicate_append_cons (k : ℕ) (b : String) :
    ∃ hd tl, List.replicate k "" ++ [b] = hd :: tl := by
  cases k with
  | zero => exact ⟨b, [], by simp⟩
  | succ k => exact ⟨"", List.replicate k "" ++ [b], by
      simp [List.replicate_succ]⟩

theorem wrapTextGo_count_empties (host : Host) (font : Font)
    (maxWidth letterSpacing : ℚ) (b : String) (hb : b ≠ "") :
    ∀ k : ℕ, (wrapTextGo host font maxWidth letterSpacing
      (List.replicate k "" ++ [b])).count "" = 2 * k := by
  intro k
  induction k with
  | zero =>
    simp only [List.replicate, List.nil_append, wrapTextGo]
    exact List.count_eq_zero.mpr
      (wrapLineByChars_no_empty host font b maxWidth letterSpacing hb)
  | succ k ih =>
    obtain ⟨hd, tl, hrest⟩ := replicate_append_cons k b
    rw [List.replicate_succ, List.cons_append, hrest]
    simp only [wrapTextGo, wrapLineByChars_empty, if_pos rfl]
    rw [List.count_append, List.count_append, ← hrest, ih]
    simp [List.count_cons]
    ring

/-- C4 (amended): `wrapText` splits on newlines, but each interior empty
paragraph contributes exactly TWO empty output lines (one from wrapping the
empty paragraph, one from the explicit empty-line push), so a run of `n`
consecutive newlines between two non-empty single-line paragraphs
contributes exactly `2*(n-1)` empty lines, not `n-1`. -/
theorem wrapText_empty_paragraph_count (host : Host) (font : Font)
    (maxWidth letterSpacing : ℚ) (a b : String) (n : ℕ) (hn : 1 ≤ n)
    (ha : a ≠ "") (hb : b ≠ "") (ha' : '\n' ∉ a.toList)
    (hb' : '\n' ∉ b.toList) :
    (wrapText host font (a ++ String.mk (List.replicate n '\n') ++ b)
      maxWidth letterSpacing).count "" = 2 * (n - 1) := by
  unfold wrapText
  rw [splitLines_decomposition a b n hn ha' hb']
  obtain ⟨hd, tl, hrest⟩ := replicate_append_cons (n - 1) b
  rw [hrest]
  simp only [wrapTextGo, if_neg ha]
  have hne : ¬ (wrapLineByChars host font a maxWidth letterSpacing ++ [] ++
      wrapTextGo host font maxWidth letterSpacing (hd :: tl) = []) := by
    intro h
    rcases List.append_eq_nil.mp h with ⟨h1, -⟩
    rcases List.append_eq_nil.mp h1 with ⟨h2, -⟩
    exact wrapLineByChars_ne_nil host font a maxWidth letterSpacing h2
  rw [if_neg hne, List.count_append, List.count_append, ← hrest,
    wrapTextGo_count_empties host font maxWidth letterSpacing b hb (n - 1),
    List.count_eq_zero.mpr
      (wrapLineByChars_no_empty host font a maxWidth letterSpacing ha)]
  simp

/-- C4 counterexample: for the text `a\n\nb` (a run of `n = 2` newlines
between two non-empty paragraphs) the output contains two empty lines, not
the `n - 1 = 1` the claim asserts. -/
theorem wrapText_empty_counterexample :
    wrapText plainHost sampleFont "a\n\nb" 1 0 = ["a", "", "", "b"] ∧
    (wrapText plainHost sampleFont "a\n\nb" 1 0).count "" ≠ 2 - 1 := by
  decide

/-- Witness for the amended C4 at `a = "a"`, `b = "b"`, `n = 2`. -/
theorem wrapText_empty_paragraph_count_witness :
    (wrapText plainHost sampleFont
      ("a" ++ String.mk (List.replicate 2 '\n') ++ "b") 1 0).count "" =
      2 * (2 - 1) :=
  wrapText_empty_paragraph_count plainHost sampleFont 1 0 "a" "b" 2
    (by decide) (by decide) (by decide) (by decide) (by decide)

/-! ### C5: letter-spacing measurement -/

theorem measureChars_closed_form (host : Host) (font : Font) (s : ℚ) :
    ∀ cs : List Char, cs ≠ [] →
      measureChars host font s cs =
        (cs.map (fun c => host.measureText font (String.mk [c]))).sum +
          s * ((cs.length : ℚ) - 1) := by
  intro cs
  induction cs with
  | nil => intro h; exact absurd rfl h
  | cons c rest ih =>
    intro _
    cases rest with
    | nil =>
      simp only [measureChars, List.map_cons, List.map_nil, List.sum_cons,
        List.sum_nil, List.length_cons, List.length_nil]
      push_cast
      ring
    | cons c2 rest2 =>
      have hne : c2 :: rest2 ≠ [] := by simp
      simp only [measureChars, ih hne, List.map_cons, List.sum_cons,
        List.length_cons]
      push_cast
      ring

theorem string_length_eq_toList_length (s : String) :
    s.length = s.toList.length := rfl

theorem toList_ne_nil_of_ne_empty (s : String) (h : s ≠ "") :
    s.toList ≠ [] := by
  intro he
  apply h
  have hs : s = String.mk s.toList := rfl
  rw [hs, he]

/-- C5 (amended): with `letterSpacing = 0`, `measureLineWidth` returns the
host's native whole-line measurement; with `letterSpacing = s ≠ 0` it
returns the SUM of the host's per-character measurements plus `s * (n - 1)`,
which equals the native whole-line measurement plus `s * (n - 1)` exactly
when the host measures the line additively (i.e. without kerning or other
cross-character effects). -/
theorem measureLineWidth_characterisation (host : Host) (font : Font)
    (text : String) (h : text ≠ "") :
    measureLineWidth host font text 0 = host.measureText font text ∧
    (∀ s : ℚ, s ≠ 0 → measureLineWidth host font text s =
      (text.toList.map (fun c => host.measureText font (String.mk [c]))).sum +
        s * ((text.length : ℚ) - 1)) ∧
    ((∀ t : String, host.measureText font t =
        (t.toList.map (fun c => host.measureText font (String.mk [c]))).sum) →
      ∀ s : ℚ, s ≠ 0 → measureLineWidth host font text s =
        host.measureText font text + s * ((text.length : ℚ) - 1)) := by
  have hlist : text.toList ≠ [] := toList_ne_nil_of_ne_empty text h
  refine ⟨?_, ?_, ?_⟩
  · unfold measureLineWidth
    rw [if_neg h, if_pos rfl]
  · intro s hs
    unfold measureLineWidth
    rw [if_neg h, if_neg hs, measureChars_closed_form host font s _ hlist,
      string_length_eq_toList_length]
  · intro hadd s hs
    unfold measureLineWidth
    rw [if_neg h, if_neg hs, measureChars_closed_form host font s _ hlist,
      string_length_eq_toList_length, ← hadd text]

/-- Witness for the amended C5 on the line `ab` under `kernHost`. -/
theorem measureLineWidth_characterisation_witness :
    measureLineWidth kernHost sampleFont "ab" 0 =
      kernHost.measureText sampleFont "ab" ∧
    (∀ s : ℚ, s ≠ 0 → measureLineWidth kernHost sampleFont "ab" s =
      ("ab".toList.map
        (fun c => kernHost.measureText sampleFont (String.mk [c]))).sum +
        s * (("ab".length : ℚ) - 1)) ∧
    ((∀ t : String, kernHost.measureText sampleFont t =
        (t.toList.map
          (fun c => kernHost.measureText sampleFont (String.mk [c]))).sum) →
      ∀ s : ℚ, s ≠ 0 → measureLineWidth kernHost sampleFont "ab" s =
        kernHost.measureText sampleFont "ab" + s * (("ab".length : ℚ) - 1)) :=
  measureLineWidth_characterisation kernHost sampleFont "ab" (by decide)

/-- C5 counterexample: under a host with a kerning pair (`ab` measures 5,
each of `a`, `b` measures 1), the per-character sum `1 + 1 + 1 = 3` at
`letterSpacing = 1` differs from native measurement plus
`s * (n - 1) = 5 + 1 = 6`. -/
theorem measureLineWidth_counterexample :
    measureLineWidth kernHost sampleFont "ab" 1 ≠
      kernHost.measureText sampleFont "ab" + 1 * (("ab".length : ℚ) - 1) := by
  have hlist : "ab".toList = ['a', 'b'] := by decide
  have hlhs : measureLineWidth kernHost sampleFont "ab" 1 = 3 := by
    unfold measureLineWidth
    rw [if_neg (by decide), if_neg (by norm_num), hlist]
    have ha : kernHost.measureText sampleFont (String.mk ['a']) = 1 := by
      decide
    have hb : kernHost.measureText sampleFont (String.mk ['b']) = 1 := by
      decide
    simp only [measureChars, ha, hb]
    norm_num
  have hrhs : kernHost.measureText sampleFont "ab" +
      1 * (("ab".length : ℚ) - 1) = 6 := by
    have hab : kernHost.measureText sampleFont "ab" = 5 := by decide
    have hlen : "ab".length = 2 := by decide
    rw [hab, hlen]
    norm_num
  rw [hlhs, hrhs]
  norm_num

/-! ### C1: termination and floor behaviour of the autofit loop -/

theorem ceil_ge_twelve_of_ge_six (fs : ℚ) (h : 6 ≤ fs) :
    (12 : ℤ) ≤ ⌈2 * fs⌉ := by
  have h2 : ((12 : ℤ) : ℚ) ≤ 2 * fs := by push_cast; linarith
  calc (12 : ℤ) = ⌈((12 : ℤ) : ℚ)⌉ := by simp
    _ ≤ ⌈2 * fs⌉ := Int.ceil_le_ceil h2

theorem ceil_two_mul_sub_half (fs : ℚ) :
    ⌈2 * (fs - 1/2)⌉ = ⌈2 * fs⌉ - 1 := by
  have h : 2 * (fs - 1/2) = 2 * fs - 1 := by ring
  rw [h, Int.ceil_sub_one]

theorem fitLoop_succ (host : Host) (fontWeight : ℤ) (fontFamily text : String)
    (rect : IntRect) (letterSpacing lineHeight : ℚ) :
    ∀ (n : ℕ) (fs : ℚ) (acc : List String), fitMeasure fs ≤ n →
      fitLoop host fontWeight fontFamily text rect letterSpacing lineHeight
        (n + 1) fs acc =
      fitLoop host fontWeight fontFamily text rect letterSpacing lineHeight
        n fs acc := by
  intro n
  induction n with
  | zero =>
    intro fs acc h
    have h6 : ¬ 6 ≤ fs := by
      intro hfs
      have h12 := ceil_ge_twelve_of_ge_six fs hfs
      unfold fitMeasure at h
      omega
    simp [fitLoop, h6]
  | succ n ih =>
    intro fs acc h
    by_cases h6 : 6 ≤ fs
    · by_cases hfit : fitsAt host fontWeight fontFamily text rect
        letterSpacing lineHeight fs
      · simp [fitLoop, h6, hfit]
      · simp only [fitLoop, if_pos h6, hfit, Bool.false_eq_true, if_false]
        apply ih
        have h12 := ceil_ge_twelve_of_ge_six fs h6
        unfold fitMeasure at h ⊢
        rw [ceil_two_mul_sub_half]
        omega
    · simp [fitLoop, h6]

theorem fitLoop_stable (host : Host) (fontWeight : ℤ)
    (fontFamily text : String) (rect : IntRect)
    (letterSpacing lineHeight : ℚ) (fs : ℚ) (acc : List String) :
    ∀ (k n : ℕ), fitMeasure fs ≤ n →
      fitLoop host fontWeight fontFamily text rect letterSpacing lineHeight
        (n + k) fs acc =
      fitLoop host fontWeight fontFamily text rect letterSpacing lineHeight
        n fs acc := by
  intro k
  induction k with
  | zero => intro n _; rfl
  | succ k ih =>
    intro n h
    have : n + (k + 1) = (n + k) + 1 := by omega
    rw [this, fitLoop_succ host fontWeight fontFamily text rect letterSpacing
      lineHeight (n + k) fs acc (by omega), ih n h]

theorem fitLoop_nofit_bounds (host : Host) (fontWeight : ℤ)
    (fontFamily text : String) (rect : IntRect)
    (letterSpacing lineHeight : ℚ)
    (hfits : ∀ fs, 6 ≤ fs → fitsAt host fontWeight fontFamily text rect
      letterSpacing lineHeight fs = false) :
    ∀ (n : ℕ) (fs : ℚ) (acc : List String), fitMeasure fs ≤ n →
      (¬ 6 ≤ fs →
        fitLoop host fontWeight fontFamily text rect letterSpacing lineHeight
          n fs acc = (fs, acc)) ∧
      (6 ≤ fs →
        11/2 ≤ (fitLoop host fontWeight fontFamily text rect letterSpacing
          lineHeight n fs acc).1 ∧
        (fitLoop host fontWeight fontFamily text rect letterSpacing lineHeight
          n fs acc).1 < 6) := by
  intro n
  induction n with
  | zero =>
    intro fs acc h
    refine ⟨fun _ => rfl, fun h6 => ?_⟩
    have h12 := ceil_ge_twelve_of_ge_six fs h6
    unfold fitMeasure at h
    omega
  | succ n ih =>
    intro fs acc h
    constructor
    · intro h6
      simp [fitLoop, h6]
    · intro h6
      simp only [fitLoop, if_pos h6, hfits fs h6, Bool.false_eq_true,
        if_false]
      have hm : fitMeasure (fs - 1/2) ≤ n := by
        have h12 := ceil_ge_twelve_of_ge_six fs h6
        unfold fitMeasure at h ⊢
        rw [ceil_two_mul_sub_half]
        omega
      by_cases h6' : 6 ≤ fs - 1/2
      · exact (ih (fs - 1/2) _ hm).2 h6'
      · rw [(ih (fs - 1/2) _ hm).1 h6']
        constructor
        · simp only []
          linarith
        · simp only []
          linarith

theorem fitLoop_halfsteps (host : Host) (fontWeight : ℤ)
    (fontFamily text : String) (rect : IntRect)
    (letterSpacing lineHeight : ℚ) :
    ∀ (n : ℕ) (fs : ℚ) (acc : List String), ∃ k : ℕ,
      (fitLoop host fontWeight fontFamily text rect letterSpacing lineHeight
        n fs acc).1 = fs - (k : ℚ) / 2 := by
  intro n
  induction n with
  | zero =>
    intro fs acc
    exact ⟨0, by simp [fitLoop]⟩
  | succ n ih =>
    intro fs acc
    by_cases h6 : 6 ≤ fs
    · by_cases hfit : fitsAt host fontWeight fontFamily text rect
        letterSpacing lineHeight fs
      · exact ⟨0, by simp [fitLoop, h6, hfit]⟩
      · obtain ⟨k, hk⟩ := ih (fs - 1/2) (fitLines host fontWeight fontFamily
          text rect.width letterSpacing fs)
        refine ⟨k + 1, ?_⟩
        simp only [fitLoop, if_pos h6, hfit, Bool.false_eq_true, if_false]
        rw [hk]
        push_cast
        ring
    · exact ⟨0, by simp [fitLoop, h6]⟩

theorem fitMeasure_le_fitFuel (fs : ℚ) : fitMeasure fs ≤ fitFuel fs :=
  Nat.le_add_right _ 1

/-- C1 (amended): when the overlay text cannot fit at any candidate size
(the fit test fails for every `fontSize ≥ 6`), the autofit loop of
`drawText` terminates — the fuelled loop is stable at `fitFuel` and beyond —
but the final font size it paints with is the first `0.5`-decrement below 6,
a value in `[5.5, 6)`, NOT the 6px floor itself. -/
theorem autofit_terminates_below_floor (host : Host) (overlay : TextOverlay)
    (rect : IntRect)
    (hfits : ∀ fs, 6 ≤ fs → fitsAt host (overlayWeight overlay)
      (overlayFamily overlay) overlay.newText rect
      (normalizeLetterSpacing overlay.letterSpacing)
      (normalizeLineHeight overlay.lineHeight) fs = false) :
    (∀ n, fitFuel (drawTextBase overlay) ≤ n →
      fitLoop host (overlayWeight overlay) (overlayFamily overlay)
        overlay.newText rect (normalizeLetterSpacing overlay.letterSpacing)
        (normalizeLineHeight overlay.lineHeight) n (drawTextBase overlay) [] =
      drawTextFit host overlay rect) ∧
    11/2 ≤ (drawTextFit host overlay rect).1 ∧
    (drawTextFit host overlay rect).1 < 6 ∧
    (drawTextFont host overlay rect).size = (drawTextFit host overlay rect).1 := by
  have hbase := drawTextBase_ge_six overlay
  have hmeas := fitMeasure_le_fitFuel (drawTextBase overlay)
  refine ⟨?_, ?_, ?_, rfl⟩
  · intro n hn
    unfold drawTextFit
    obtain ⟨k, rfl⟩ : ∃ k, n = fitFuel (drawTextBase overlay) + k :=
      ⟨n - fitFuel (drawTextBase overlay), by omega⟩
    exact fitLoop_stable host _ _ _ _ _ _ _ _ k (fitFuel (drawTextBase overlay))
      hmeas
  · exact ((fitLoop_nofit_bounds host _ _ _ _ _ _ hfits _ _ _ hmeas).2
      hbase).1
  · exact ((fitLoop_nofit_bounds host _ _ _ _ _ _ hfits _ _ _ hmeas).2
      hbase).2

theorem wrapText_single_m (host : Host) (font : Font) (w s : ℚ) :
    wrapText host font "m" w s = ["m"] := by
  unfold wrapText
  have hsplit : splitLines "m" = ["m"] := by decide
  rw [hsplit]
  have hline : wrapLineByChars host font "m" w s = ["m"] := by
    unfold wrapLineByChars
    rw [if_neg (by decide)]
    by_cases hw : w ≤ 1
    · rw [if_pos hw]
    · rw [if_neg hw]
      have ht : "m".toList = ['m'] := by decide
      rw [ht]
      simp only [wrapGo, ne_eq, not_true_eq_false, false_and, if_false]
      have hp : String.push "" 'm' = "m" := by decide
      rw [hp]
      simp
  simp only [wrapTextGo, hline]
  simp

theorem fitLines_wide_m (fw : ℤ) (fam : String) (w : ℤ) (sp fs : ℚ) :
    fitLines wideHost fw fam "m" w sp fs = ["m"] :=
  wrapText_single_m wideHost (mkFont fw fs fam) (w : ℚ) sp

theorem unfit_letterSpacing :
    normalizeLetterSpacing unfitOverlay.letterSpacing = 0 := by
  show clampQ 0 (-2) 12 = 0
  unfold clampQ
  rw [min_eq_right (by norm_num), max_eq_right (by norm_num)]

theorem wideHost_measure_m (font : Font) :
    wideHost.measureText font "m" = 100 := by
  show (if ("m" : String) = "" then (0 : ℚ) else 100) = 100
  rw [if_neg (by decide)]

theorem unfit_nofit :
    ∀ fs, 6 ≤ fs → fitsAt wideHost (overlayWeight unfitOverlay)
      (overlayFamily unfitOverlay) unfitOverlay.newText smallRect
      (normalizeLetterSpacing unfitOverlay.letterSpacing)
      (normalizeLineHeight unfitOverlay.lineHeight) fs = false := by
  intro fs _
  have hm : unfitOverlay.newText = "m" := rfl
  rw [hm, unfit_letterSpacing]
  unfold fitsAt
  rw [decide_eq_false_iff_not]
  rintro ⟨-, hB⟩
  unfold fitMaxWidth at hB
  rw [fitLines_wide_m] at hB
  simp only [List.foldl] at hB
  rw [measureLineWidth, if_neg (by decide), if_pos rfl,
    wideHost_measure_m] at hB
  have hsw : ((smallRect.width : ℤ) : ℚ) = 10 := by norm_num [smallRect]
  rw [hsw] at hB
  have h100 : (0 : ℚ) ⊔ 100 = 100 := max_eq_right (by norm_num)
  rw [h100] at hB
  norm_num at hB

theorem unfit_base : drawTextBase unfitOverlay = 16 := by
  show clampQ (jsOrQ 16 16) 6 400 = 16
  rw [jsOrQ, if_neg (by norm_num)]
  unfold clampQ
  rw [min_eq_right (by norm_num), max_eq_right (by norm_num)]

/-- C1 counterexample: for the overlay `unfitOverlay` under `wideHost`, the
text cannot fit at any font size down to 6 in the 10×10 rect, yet the font
size the autofit loop settles on — the size the text is painted at — is
`5.5`, not `6`. -/
theorem autofit_counterexample :
    (∀ fs : ℚ, 6 ≤ fs → fitsAt wideHost (overlayWeight unfitOverlay)
      (overlayFamily unfitOverlay) unfitOverlay.newText smallRect
      (normalizeLetterSpacing unfitOverlay.letterSpacing)
      (normalizeLineHeight unfitOverlay.lineHeight) fs = false) ∧
    (drawTextFit wideHost unfitOverlay smallRect).1 = 11/2 ∧
    (drawTextFit wideHost unfitOverlay smallRect).1 ≠ 6 := by
  have hbounds := (fitLoop_nofit_bounds wideHost (overlayWeight unfitOverlay)
    (overlayFamily unfitOverlay) unfitOverlay.newText smallRect
    (normalizeLetterSpacing unfitOverlay.letterSpacing)
    (normalizeLineHeight unfitOverlay.lineHeight) unfit_nofit
    (fitFuel (drawTextBase unfitOverlay)) (drawTextBase unfitOverlay) []
    (fitMeasure_le_fitFuel _)).2 (drawTextBase_ge_six unfitOverlay)
  obtain ⟨k, hk⟩ := fitLoop_halfsteps wideHost (overlayWeight unfitOverlay)
    (overlayFamily unfitOverlay) unfitOverlay.newText smallRect
    (normalizeLetterSpacing unfitOverlay.letterSpacing)
    (normalizeLineHeight unfitOverlay.lineHeight)
    (fitFuel (drawTextBase unfitOverlay)) (drawTextBase unfitOverlay) []
  have hfit1 : (drawTextFit wideHost unfitOverlay smallRect).1 =
      drawTextBase unfitOverlay - (k : ℚ) / 2 := hk
  have hlow : 11/2 ≤ (drawTextFit wideHost unfitOverlay smallRect).1 :=
    hbounds.1
  have hhigh : (drawTextFit wideHost unfitOverlay smallRect).1 < 6 :=
    hbounds.2
  rw [unfit_base] at hfit1
  have h20 : (20 : ℚ) < (k : ℚ) := by
    rw [hfit1] at hhigh
    linarith
  have h21 : (k : ℚ) ≤ 21 := by
    rw [hfit1] at hlow
    linarith
  have hk21 : k = 21 := by
    have ha : 20 < k := by exact_mod_cast h20
    have hb : k ≤ 21 := by exact_mod_cast h21
    omega
  rw [hk21] at hfit1
  have hval : (drawTextFit wideHost unfitOverlay smallRect).1 = 11/2 := by
    rw [hfit1]
    norm_num
  exact ⟨unfit_nofit, hval, by rw [hval]; norm_num⟩

/-- Witness for the amended C1 at `wideHost` and `unfitOverlay`. -/
theorem autofit_terminates_below_floor_witness :
    (∀ fs, 6 ≤ fs → fitsAt wideHost (overlayWeight unfitOverlay)
      (overlayFamily unfitOverlay) unfitOverlay.newText smallRect
      (normalizeLetterSpacing unfitOverlay.letterSpacing)
      (normalizeLineHeight unfitOverlay.lineHeight) fs = false) ∧
    ((∀ n, fitFuel (drawTextBase unfitOverlay) ≤ n →
      fitLoop wideHost (overlayWeight unfitOverlay)
        (overlayFamily unfitOverlay) unfitOverlay.newText smallRect
        (normalizeLetterSpacing unfitOverlay.letterSpacing)
        (normalizeLineHeight unfitOverlay.lineHeight) n
        (drawTextBase unfitOverlay) [] =
      drawTextFit wideHost unfitOverlay smallRect) ∧
    11/2 ≤ (drawTextFit wideHost unfitOverlay smallRect).1 ∧
    (drawTextFit wideHost unfitOverlay smallRect).1 < 6 ∧
    (drawTextFont wideHost unfitOverlay smallRect).size =
      (drawTextFit wideHost unfitOverlay smallRect).1) :=
  ⟨unfit_nofit,
    autofit_terminates_below_floor wideHost unfitOverlay smallRect unfit_nofit⟩

/-! ### C6: clone direction fallback order -/

/-- C6: in clone mode with `cloneDirection` unset, the directions are tried
in the fixed order `up, down, left, right`; when `up` has no in-bounds
source and `down` has one, `applyBackground` clones from the `down` source,
which has the same size as the target rect and starts at
`y = rect.y + rect.height + 2`. -/
theorem clone_direction_fallback (host : Host) (overlay : TextOverlay)
    (rect src : IntRect) (ctx : Ctx)
    (hmode : overlay.backgroundMode = some .clone)
    (hdir : overlay.cloneDirection = none)
    (hup : getSourceRect rect ctx.width ctx.height .up = none)
    (hdown : getSourceRect rect ctx.width ctx.height .down = some src) :
    getCloneOrder none = [.up, .down, .left, .right] ∧
    applyBackground host overlay rect ctx = cloneApply rect src ctx ∧
    src = ⟨rect.x, rect.y + rect.height + 2, rect.width, rect.height⟩ := by
  refine ⟨rfl, ?_, ?_⟩
  · unfold applyBackground
    rw [hmode, hdir]
    simp only [Option.getD_some, getCloneOrder, cloneLoop, hup, hdown]
  · simp only [getSourceRect] at hdown
    split at hdown
    · injection hdown with h
      exact h.symm
    · cases hdown

/-- Witness for C6: the 10×10 rect at the canvas origin inside a 100×100
canvas has no room above but room below; the source starts at `y = 12`. -/
theorem clone_direction_fallback_witness :
    getCloneOrder none = [.up, .down, .left, .right] ∧
    applyBackground plainHost cornerCloneOverlay smallRect (mkCtx 100 100) =
      cloneApply smallRect ⟨0, 12, 10, 10⟩ (mkCtx 100 100) ∧
    (⟨0, 12, 10, 10⟩ : IntRect) =
      ⟨smallRect.x, smallRect.y + smallRect.height + 2, smallRect.width,
        smallRect.height⟩ :=
  clone_direction_fallback plainHost cornerCloneOverlay smallRect
    ⟨0, 12, 10, 10⟩ (mkCtx 100 100) rfl rfl (by decide) (by decide)

/-! ### C7: neighbour-average fallback -/

theorem cloneLoop_all_none (host : Host) (rect : IntRect)
    (fallbackColor : String) (ctx : Ctx)
    (hall : ∀ d, getSourceRect rect ctx.width ctx.height d = none) :
    ∀ dirs : List CloneDirection,
      cloneLoop host rect fallbackColor ctx dirs =
        cloneLoop host rect fallbackColor ctx [] := by
  intro dirs
  induction dirs with
  | nil => rfl
  | cons d rest ih =>
    simp only [cloneLoop, hall d]
    exact ih

theorem hexDigitChars_not_ws : ∀ c ∈ hexDigitChars, c.isWhitespace = false := by
  decide

theorem dropWhile_eq_self_of_all {p : Char → Bool} (l : List Char)
    (h : ∀ x ∈ l, p x = false) : l.dropWhile p = l := by
  cases l with
  | nil => rfl
  | cons a t =>
    rw [List.dropWhile_cons, h a (List.mem_cons_self a t)]
    simp

theorem jsTrimChars_eq_self (cs : List Char)
    (h : ∀ x ∈ cs, x.isWhitespace = false) : jsTrimChars cs = cs := by
  unfold jsTrimChars
  rw [dropWhile_eq_self_of_all cs h,
    dropWhile_eq_self_of_all cs.reverse
      (fun x hx => h x (List.mem_reverse.mp hx)),
    List.reverse_reverse]

theorem isHex6_not_ws (s : String) (h : isHex6 s = true) :
    ∀ x ∈ s.toList, x.isWhitespace = false := by
  unfold isHex6 at h
  rcases hl : s.toList with _ | ⟨c, rest⟩
  · rw [hl] at h
    cases h
  · rw [hl] at h
    simp only [Bool.and_eq_true, beq_iff_eq] at h
    obtain ⟨⟨hc, -⟩, hall⟩ := h
    intro x hx
    rcases List.mem_cons.mp hx with rfl | hx'
    · rw [hc]
      decide
    · have hd : isHexDigitChar x = true := by
        rw [List.all_eq_true] at hall
        exact hall x hx'
      have hmem : x ∈ hexDigitChars := by
        unfold isHexDigitChar at hd
        exact of_decide_eq_true hd
      exact hexDigitChars_not_ws x hmem

theorem jsTrim_of_isHex6 (s : String) (h : isHex6 s = true) : jsTrim s = s := by
  unfold jsTrim
  rw [jsTrimChars_eq_self s.toList (isHex6_not_ws s h)]
  exact mk_toList s

theorem isHex6_ne_empty (s : String) (h : isHex6 s = true) : s ≠ "" := by
  intro he
  rw [he] at h
  exact absurd h (by decide)

theorem normalizeHexColor_of_valid (s fb : String) (h : isHex6 s = true) :
    normalizeHexColor s fb = s := by
  unfold normalizeHexColor
  rw [jsTrim_of_isHex6 s h, if_pos h]

/-- C7: in clone mode, when no direction has an in-bounds source rect,
`applyBackground` flat-fills the rect with `getAverageNeighborColor`; that
colour is the per-channel arithmetic mean (rounded, hex-formatted) of all
pixels in the 1-pixel strips just outside the in-bounds edges of the rect;
when no strip pixel exists — in particular when the rect spans the entire
canvas — the (normalized) overlay background colour is used instead, and a
well-formed `backgroundColor` is used verbatim. No error is ever raised:
every case produces a fill. -/
theorem neighbor_average_fallback (host : Host) (overlay : TextOverlay)
    (rect : IntRect) (ctx : Ctx)
    (hmode : overlay.backgroundMode = some .clone)
    (hall : ∀ d, getSourceRect rect ctx.width ctx.height d = none) :
    applyBackground host overlay rect ctx =
      fillRectOp host
        (withFillStyle ctx (getAverageNeighborColor ctx rect
          (normalizeHexColor (jsOrStr overlay.backgroundColor "#ffffff")
            "#ffffff")))
        rect.x rect.y rect.width rect.height ∧
    (neighborCoords ctx rect = [] →
      getAverageNeighborColor ctx rect
          (normalizeHexColor (jsOrStr overlay.backgroundColor "#ffffff")
            "#ffffff") =
        normalizeHexColor (jsOrStr overlay.backgroundColor "#ffffff")
          "#ffffff") ∧
    (isHex6 overlay.backgroundColor = true → neighborCoords ctx rect = [] →
      getAverageNeighborColor ctx rect
          (normalizeHexColor (jsOrStr overlay.backgroundColor "#ffffff")
            "#ffffff") =
        overlay.backgroundColor) ∧
    (neighborCoords ctx rect ≠ [] →
      getAverageNeighborColor ctx rect
          (normalizeHexColor (jsOrStr overlay.backgroundColor "#ffffff")
            "#ffffff") =
        "#" ++ toHexByte (jsRound
            ((((neighborCoords ctx rect).map
              (fun p => (readPixel ctx p).r)).sum : ℚ) /
              (neighborCoords ctx rect).length)).toNat ++
          toHexByte (jsRound
            ((((neighborCoords ctx rect).map
              (fun p => (readPixel ctx p).g)).sum : ℚ) /
              (neighborCoords ctx rect).length)).toNat ++
          toHexByte (jsRound
            ((((neighborCoords ctx rect).map
              (fun p => (readPixel ctx p).b)).sum : ℚ) /
              (neighborCoords ctx rect).length)).toNat) ∧
    (rect.x = 0 → rect.y = 0 → rect.width = ctx.width →
      rect.height = ctx.height → neighborCoords ctx rect = []) := by
  refine ⟨?_, ?_, ?_, ?_, ?_⟩
  · unfold applyBackground
    rw [hmode]
    simp only [Option.getD_some]
    rw [cloneLoop_all_none host rect _ ctx hall]
    rfl
  · intro hempty
    unfold getAverageNeighborColor
    rw [hempty]
    rfl
  · intro hvalid hempty
    unfold getAverageNeighborColor
    rw [hempty]
    simp only [List.length_nil, if_pos rfl]
    rw [jsOrStr, if_neg (isHex6_ne_empty _ hvalid)]
    exact normalizeHexColor_of_valid _ _ hvalid
  · intro hne
    unfold getAverageNeighborColor
    rw [if_neg (fun h => hne (List.length_eq_zero.mp h))]
  · intro hx hy hw hh
    unfold neighborCoords
    rw [hx, hy, hw, hh]
    simp

/-- The full-canvas rect of a 5×5 canvas admits no clone source. -/
theorem fullCanvas_no_source :
    ∀ d, getSourceRect ⟨0, 0, 5, 5⟩ (mkCtx 5 5).width (mkCtx 5 5).height d =
      none := by
  intro d
  cases d <;> decide

/-- Witness for C7 on a 5×5 canvas whose overlay rect spans it entirely. -/
theorem neighbor_average_fallback_witness :
    applyBackground plainHost fullCanvasCloneOverlay ⟨0, 0, 5, 5⟩
        (mkCtx 5 5) =
      fillRectOp plainHost
        (withFillStyle (mkCtx 5 5) (getAverageNeighborColor (mkCtx 5 5)
          ⟨0, 0, 5, 5⟩
          (normalizeHexColor
            (jsOrStr fullCanvasCloneOverlay.backgroundColor "#ffffff")
            "#ffffff")))
        (0 : ℤ) (0 : ℤ) (5 : ℤ) (5 : ℤ) ∧
    (neighborCoords (mkCtx 5 5) ⟨0, 0, 5, 5⟩ = [] →
      getAverageNeighborColor (mkCtx 5 5) ⟨0, 0, 5, 5⟩
          (normalizeHexColor
            (jsOrStr fullCanvasCloneOverlay.backgroundColor "#ffffff")
            "#ffffff") =
        normalizeHexColor
          (jsOrStr fullCanvasCloneOverlay.backgroundColor "#ffffff")
          "#ffffff") ∧
    (isHex6 fullCanvasCloneOverlay.backgroundColor = true →
      neighborCoords (mkCtx 5 5) ⟨0, 0, 5, 5⟩ = [] →
      getAverageNeighborColor (mkCtx 5 5) ⟨0, 0, 5, 5⟩
          (normalizeHexColor
            (jsOrStr fullCanvasCloneOverlay.backgroundColor "#ffffff")
            "#ffffff") =
        fullCanvasCloneOverlay.backgroundColor) ∧
    (neighborCoords (mkCtx 5 5) ⟨0, 0, 5, 5⟩ ≠ [] →
      getAverageNeighborColor (mkCtx 5 5) ⟨0, 0, 5, 5⟩
          (normalizeHexColor
            (jsOrStr fullCanvasCloneOverlay.backgroundColor "#ffffff")
            "#ffffff") =
        "#" ++ toHexByte (jsRound
            ((((neighborCoords (mkCtx 5 5) ⟨0, 0, 5, 5⟩).map
              (fun p => (readPixel (mkCtx 5 5) p).r)).sum : ℚ) /
              (neighborCoords (mkCtx 5 5) ⟨0, 0, 5, 5⟩).length)).toNat ++
          toHexByte (jsRound
            ((((neighborCoords (mkCtx 5 5) ⟨0, 0, 5, 5⟩).map
              (fun p => (readPixel (mkCtx 5 5) p).g)).sum : ℚ) /
              (neighborCoords (mkCtx 5 5) ⟨0, 0, 5, 5⟩).length)).toNat ++
          toHexByte (jsRound
            ((((neighborCoords (mkCtx 5 5) ⟨0, 0, 5, 5⟩).map
              (fun p => (readPixel (mkCtx 5 5) p).b)).sum : ℚ) /
              (neighborCoords (mkCtx 5 5) ⟨0, 0, 5, 5⟩).length)).toNat) ∧
    ((0 : ℤ) = 0 → (0 : ℤ) = 0 → (5 : ℤ) = (mkCtx 5 5).width →
      (5 : ℤ) = (mkCtx 5 5).height →
      neighborCoords (mkCtx 5 5) ⟨0, 0, 5, 5⟩ = []) :=
  neighbor_average_fallback plainHost fullCanvasCloneOverlay ⟨0, 0, 5, 5⟩
    (mkCtx 5 5) rfl fullCanvas_no_source

/-! ### C8: clip containment -/

theorem fillRectOp_surface_outside (host : Host) (ctx : Ctx) (x y w h : ℤ)
    (p : ℤ × ℤ)
    (hp : ¬ (x ≤ p.1 ∧ p.1 < x + w ∧ y ≤ p.2 ∧ p.2 < y + h)) :
    (fillRectOp host ctx x y w h).surface p = ctx.surface p := by
  unfold fillRectOp
  exact if_neg (fun hc => hp ⟨hc.1, hc.2.1, hc.2.2.1, hc.2.2.2.1⟩)

theorem putImageDataOp_surface_outside (ctx : Ctx) (block : ℤ → ℤ → Color)
    (x y w h : ℤ) (p : ℤ × ℤ)
    (hp : ¬ (x ≤ p.1 ∧ p.1 < x + w ∧ y ≤ p.2 ∧ p.2 < y + h)) :
    (putImageDataOp ctx block x y w h).surface p = ctx.surface p := by
  unfold putImageDataOp
  exact if_neg (fun hc => hp ⟨hc.1, hc.2.1, hc.2.2.1, hc.2.2.2.1⟩)

theorem cloneApply_surface_outside (rect src : IntRect) (ctx : Ctx)
    (p : ℤ × ℤ) (hp : ¬ inRect p rect) :
    (cloneApply rect src ctx).surface p = ctx.surface p := by
  unfold cloneApply
  exact putImageDataOp_surface_outside ctx _ rect.x rect.y rect.width
    rect.height p hp

theorem cloneLoop_surface_outside (host : Host) (rect : IntRect)
    (fallbackColor : String) (ctx : Ctx) (p : ℤ × ℤ) (hp : ¬ inRect p rect) :
    ∀ dirs : List CloneDirection,
      (cloneLoop host rect fallbackColor ctx dirs).surface p =
        ctx.surface p := by
  intro dirs
  induction dirs with
  | nil =>
    simp only [cloneLoop]
    exact fillRectOp_surface_outside host _ rect.x rect.y rect.width
      rect.height p hp
  | cons d rest ih =>
    simp only [cloneLoop]
    rcases hs : getSourceRect rect ctx.width ctx.height d with _ | src
    · exact ih
    · exact cloneApply_surface_outside rect src ctx p hp

theorem applyBackground_surface_outside (host : Host) (overlay : TextOverlay)
    (rect : IntRect) (ctx : Ctx) (p : ℤ × ℤ) (hp : ¬ inRect p rect) :
    (applyBackground host overlay rect ctx).surface p = ctx.surface p := by
  unfold applyBackground
  rcases overlay.backgroundMode.getD .solid with _ | _
  · exact fillRectOp_surface_outside host _ rect.x rect.y rect.width
      rect.height p hp
  · exact cloneLoop_surface_outside host rect _ ctx p hp _

theorem fillTextOp_surface_outside_clip (host : Host) (ctx : Ctx)
    (text : String) (x y : ℚ) (p : ℤ × ℤ)
    (h : ¬ clipAllows ctx.clip p) :
    (fillTextOp host ctx text x y).surface p = ctx.surface p := by
  unfold fillTextOp
  dsimp only
  rcases hm : host.textPaint ctx.font text ctx.fillStyle x y ctx.surface p
    with _ | c
  · rfl
  · exact if_neg (fun hc => h hc.2)

theorem drawCharsLoop_clip (host : Host) (letterSpacing y : ℚ) :
    ∀ (cs : List Char) (cursorX : ℚ) (ctx : Ctx),
      (drawCharsLoop host letterSpacing y cs cursorX ctx).clip = ctx.clip := by
  intro cs
  induction cs with
  | nil => intro cursorX ctx; rfl
  | cons c rest ih =>
    intro cursorX ctx
    simp only [drawCharsLoop, ih]
    rfl

theorem drawCharsLoop_surface_outside_clip (host : Host)
    (letterSpacing y : ℚ) (p : ℤ × ℤ) :
    ∀ (cs : List Char) (cursorX : ℚ) (ctx : Ctx),
      ¬ clipAllows ctx.clip p →
      (drawCharsLoop host letterSpacing y cs cursorX ctx).surface p =
        ctx.surface p := by
  intro cs
  induction cs with
  | nil => intro cursorX ctx _; rfl
  | cons c rest ih =>
    intro cursorX ctx h
    simp only [drawCharsLoop]
    rw [ih _ _ (by rw [fillTextOp_clip]; exact h)]
    exact fillTextOp_surface_outside_clip host ctx _ cursorX y p h

theorem drawLineWithSpacing_clip (host : Host) (ctx : Ctx) (line : String)
    (x y letterSpacing : ℚ) :
    (drawLineWithSpacing host ctx line x y letterSpacing).clip = ctx.clip := by
  unfold drawLineWithSpacing
  split
  · rfl
  · split
    · rfl
    · exact drawCharsLoop_clip host letterSpacing y _ x ctx

theorem drawLineWithSpacing_surface_outside_clip (host : Host) (ctx : Ctx)
    (line : String) (x y letterSpacing : ℚ) (p : ℤ × ℤ)
    (h : ¬ clipAllows ctx.clip p) :
    (drawLineWithSpacing host ctx line x y letterSpacing).surface p =
      ctx.surface p := by
  unfold drawLineWithSpacing
  split
  · rfl
  · split
    · exact fillTextOp_surface_outside_clip host ctx line x y p h
    · exact drawCharsLoop_surface_outside_clip host letterSpacing y p _ x
        ctx h

theorem paintLines_surface_outside_clip (host : Host)
    (hAlign : HorizontalAlign) (rect : IntRect)
    (letterSpacing startY lineHeightPx : ℚ) (p : ℤ × ℤ) :
    ∀ (lines : List String) (index : ℕ) (ctx : Ctx),
      ¬ clipAllows ctx.clip p →
      (paintLines host hAlign rect letterSpacing startY lineHeightPx lines
        index ctx).surface p = ctx.surface p := by
  intro lines
  induction lines with
  | nil => intro index ctx _; rfl
  | cons line rest ih =>
    intro index ctx h
    simp only [paintLines]
    rw [ih _ _ (by rw [drawLineWithSpacing_clip]; exact h)]
    exact drawLineWithSpacing_surface_outside_clip host ctx line _ _
      letterSpacing p h

theorem inRect_of_interRect (p : ℤ × ℤ) (a b : IntRect)
    (h : inRect p (interRect a b)) : inRect p b := by
  unfold inRect at h ⊢
  unfold interRect at h
  obtain ⟨h1, h2, h3, h4⟩ := h
  refine ⟨?_, ?_, ?_, ?_⟩ <;> simp only at h1 h2 h3 h4 <;> omega

theorem drawText_surface_outside (host : Host) (overlay : TextOverlay)
    (rect : IntRect) (ctx : Ctx) (p : ℤ × ℤ) (hp : ¬ inRect p rect) :
    (drawText host overlay rect ctx).surface p = ctx.surface p := by
  unfold drawText
  dsimp only
  rw [paintLines_surface_outside_clip]
  · rfl
  · show ¬ clipAllows (clipOp _ rect).clip p
    unfold clipOp
    dsimp only
    rcases ctx.clip with _ | c
    · exact fun hc => hp hc
    · exact fun hc => hp (inRect_of_interRect p c rect hc)

/-- C8: for every host, overlay and starting canvas context, no pixel
outside the resolved rect is modified by `renderTextOverlay`: the
background writes target only the rect, and all glyph painting happens
under a clip region contained in the rect. -/
theorem render_outside_unchanged (host : Host) (overlay : TextOverlay)
    (ctx : Ctx) (p : ℤ × ℤ)
    (hp : ¬ inRect p (toIntRect overlay.rect ctx.width ctx.height)) :
    (renderTextOverlay host overlay ctx).surface p = ctx.surface p := by
  unfold renderTextOverlay
  dsimp only
  split
  · rfl
  · rw [drawText_surface_outside host overlay _ _ p hp,
      applyBackground_surface_outside host overlay _ ctx p hp]

theorem outside_pixel_example :
    ¬ inRect ((5 : ℤ), (5 : ℤ))
      (toIntRect outsideOverlay.rect (mkCtx 10 10).width
        (mkCtx 10 10).height) := by
  have h : toIntRect outsideOverlay.rect 10 10 = ⟨0, 0, 3, 3⟩ := by
    simp only [toIntRect, clampZ, outsideOverlay, baseOverlay]
    norm_num
  show ¬ inRect ((5 : ℤ), (5 : ℤ)) (toIntRect outsideOverlay.rect 10 10)
  rw [h]
  decide

/-- Witness for C8: pixel `(5, 5)` lies outside the resolved `(0,0,3,3)`
rect and is untouched. -/
theorem render_outside_unchanged_witness :
    (renderTextOverlay plainHost outsideOverlay (mkCtx 10 10)).surface
        ((5 : ℤ), (5 : ℤ)) =
      (mkCtx 10 10).surface ((5 : ℤ), (5 : ℤ)) :=
  render_outside_unchanged plainHost outsideOverlay (mkCtx 10 10)
    ((5 : ℤ), (5 : ℤ)) outside_pixel_example

end OverlayRenderer
